import Mathlib

/-!
# Record encoders, query fillers and format registries of tsbs

A shallow embedding of

* `bulk_data_gen/point.go` (`Point`, `SerializeInfluxBulk`, `SerializeESBulk`,
  `fastFormatAppend`),
* `cmd/tsbs_generate_queries/uses/iot/{avg_vs_projected_fuel,high_load}.go`
  (the two query fillers),
* `pkg/targets/initializers/target_initializers.go` (`GetTarget`) and
  `pkg/query/factories/init_factories.go` (`InitQueryFactories`),

followed by theorems about what these functions write, return and reject.

Byte slices are lists of `UInt8`.  A Go panic is the `error` case of `Except Fatal`,
an `error` return value is an `Option`.
-/

namespace Tsbs

/-! ## Bytes and the formatting routines of the Go library -/

/-- A byte slice (`[]byte`), also used for Go strings. -/
abbrev Bytes := List UInt8

/-- The byte of an ASCII character. -/
def byte (c : Char) : UInt8 := c.toNat.toUInt8

/-- The bytes of an ASCII string literal of the source. -/
def lit (s : String) : Bytes := s.toList.map byte

/-- The byte of the decimal digit `d % 10`. -/
def digitByte (d : Nat) : UInt8 := (48 + d % 10).toUInt8

/-- Decimal digits of `n`, most significant first, in front of `acc`; `fuel` bounds the
number of digits produced. -/
def natDigits : Nat → Nat → Bytes → Bytes
  | 0, _, acc => acc
  | fuel + 1, n, acc =>
    if n / 10 = 0 then digitByte n :: acc
    else natDigits fuel (n / 10) (digitByte n :: acc)

/-- Decimal text of a natural number (`"0"` for zero, no leading zeros otherwise). -/
def fmtNat (n : Nat) : Bytes := natDigits (n + 1) n []

/-- Decimal text of a signed integer, as produced by `strconv.AppendInt(_, v, 10)` and by
the verb `%d`: a minus sign for negative values, then the digits of the magnitude. -/
def fmtInt (v : Int) : Bytes :=
  if v < 0 then lit "-" ++ fmtNat v.natAbs else fmtNat v.natAbs

/-- The text of `strconv.AppendBool`. -/
def fmtBool (b : Bool) : Bytes := if b then lit "true" else lit "false"

/-- Layout of an IEEE 754 binary format, as in `strconv`: number of mantissa bits, number
of exponent bits and exponent bias. -/
structure floatInfo where
  mantbits : Nat
  expbits : Nat
  bias : Int

/-- Layout of `float32`. -/
def float32info : floatInfo := ⟨23, 8, -127⟩

/-- Layout of `float64`. -/
def float64info : floatInfo := ⟨52, 11, -1023⟩

/-- Quotient `num / den` rounded to the nearest integer, ties to the even one: the rounding
of `strconv` for a requested number of digits. -/
def roundHalfEven (num den : Nat) : Nat :=
  let q := num / den
  let r := num % den
  if den < 2 * r ∨ (2 * r = den ∧ q % 2 = 1) then q + 1 else q

/-- The value `mant * 2 ^ e` in units of `10 ^ (-16)`, rounded half to even. -/
def scaled16 (mant : Nat) (e : Int) : Nat :=
  match e with
  | Int.ofNat k => mant * 2 ^ k * 10 ^ 16
  | Int.negSucc k => roundHalfEven (mant * 10 ^ 16) (2 ^ (k + 1))

/-- The `width` low decimal digits of `n`, most significant first, zero padded. -/
def fixedDigits : Nat → Nat → Bytes
  | 0, _ => []
  | width + 1, n => fixedDigits width (n / 10) ++ [digitByte n]

/-- Fixed notation with 16 fractional digits (`%e` is never used) of the magnitude
`n * 10 ^ (-16)`: an optional minus sign, the integer part, a point and the 16 fractional
digits. -/
def fmtF (neg : Bool) (n : Nat) : Bytes :=
  (if neg then lit "-" else []) ++ fmtNat (n / 10 ^ 16) ++ lit "." ++
    fixedDigits 16 (n % 10 ^ 16)

/-- The text of `strconv.AppendFloat(_, f, 'f', 16, bitSize)` for the float whose IEEE bit
pattern (in the format `flt`) is `bits`: `NaN`, `+Inf`, `-Inf`, or the exact value rounded
half to even to 16 fractional digits, in fixed notation.  Negative zero keeps its sign. -/
def fmtFloat (flt : floatInfo) (bits : Nat) : Bytes :=
  let bits := bits % 2 ^ (1 + flt.expbits + flt.mantbits)
  let neg : Bool := bits / 2 ^ (flt.expbits + flt.mantbits) != 0
  let exp := bits / 2 ^ flt.mantbits % 2 ^ flt.expbits
  let mant := bits % 2 ^ flt.mantbits
  if exp = 2 ^ flt.expbits - 1 then
    if mant ≠ 0 then lit "NaN" else if neg then lit "-Inf" else lit "+Inf"
  else
    let mant := if exp = 0 then mant else mant + 2 ^ flt.mantbits
    let exp := if exp = 0 then 1 else exp
    fmtF neg (scaled16 mant ((exp : Int) + flt.bias - (flt.mantbits : Int)))

/-! ## `bulk_data_gen/point.go` -/

/-- The dynamic value of a field (`interface{}`): one constructor per case of the type
switch in `fastFormatAppend`, and `other` for a value of any other dynamic type, `nil`
included.  Integers carry their value, floats their IEEE bit pattern. -/
inductive FieldValue
  | int (v : Int)
  | int64 (v : Int)
  | float64 (bits : Nat)
  | float32 (bits : Nat)
  | bool (b : Bool)
  | bytes (b : Bytes)
  | string (s : Bytes)
  | other
  deriving DecidableEq

/-- A single data point.  `Timestamp` holds the value of `Timestamp.UnixNano()`. -/
structure Point where
  MeasurementName : Bytes
  TagKeys : List Bytes
  TagValues : List Bytes
  FieldKeys : List Bytes
  FieldValues : List FieldValue
  Timestamp : Int
  deriving DecidableEq

/-- The ways in which an encoder call panics. -/
inductive Fatal
  | unknownFieldType
  | indexOutOfRange
  deriving DecidableEq

instance Except.instDecidableEq {ε α : Type} [DecidableEq ε] [DecidableEq α] :
    DecidableEq (Except ε α)
  | .ok a, .ok b =>
    if h : a = b then isTrue (congrArg Except.ok h)
    else isFalse (fun h2 => h (Except.ok.inj h2))
  | .error a, .error b =>
    if h : a = b then isTrue (congrArg Except.error h)
    else isFalse (fun h2 => h (Except.error.inj h2))
  | .ok _, .error _ => isFalse (fun h => Except.noConfusion h)
  | .error _, .ok _ => isFalse (fun h => Except.noConfusion h)

/-- An output sink (`io.Writer`) with states `σ` and errors `ε`: `Write` takes the state and
the bytes, and gives the new state and the error returned, if any. -/
structure Writer (σ ε : Type) where
  Write : σ → Bytes → σ × Option ε

/-- The sink that appends every write to the bytes received so far and never fails. -/
def bufferWriter : Writer Bytes Unit := ⟨fun s b => (s ++ b, none)⟩

/-- The literal `charComma` of the source. -/
def charComma : Bytes := lit ","

/-- The literal `charEquals` of the source. -/
def charEquals : Bytes := lit "="

/-- The literal `charSpace` of the source. -/
def charSpace : Bytes := lit " "

/-- The slice access `xs[i]`, which panics when `i` is out of range. -/
def index {α : Type} (xs : List α) (i : Nat) : Except Fatal α :=
  match xs[i]? with
  | some x => .ok x
  | none => .error Fatal.indexOutOfRange

/-- Appends the text of a field value to `buf`; panics on a value of unknown type. -/
def fastFormatAppend (v : FieldValue) (buf : Bytes) : Except Fatal Bytes :=
  match v with
  | .int v => .ok (buf ++ fmtInt v)
  | .int64 v => .ok (buf ++ fmtInt v)
  | .float64 bits => .ok (buf ++ fmtFloat float64info bits)
  | .float32 bits => .ok (buf ++ fmtFloat float32info bits)
  | .bool b => .ok (buf ++ fmtBool b)
  | .bytes b => .ok (buf ++ b)
  | .string s => .ok (buf ++ s)
  | .other => .error Fatal.unknownFieldType

/-- The tag loop of `SerializeInfluxBulk` (lines 44-49): `n` iterations are left, `i` is the
loop variable.  It is entered with `n = len(p.TagKeys)` and `i = 0`. -/
def influxTags (p : Point) : Nat → Nat → Bytes → Except Fatal Bytes
  | 0, _, buf => .ok buf
  | n + 1, i, buf => do
    let buf := buf ++ charComma
    let k ← index p.TagKeys i
    let buf := buf ++ k
    let buf := buf ++ charEquals
    let v ← index p.TagValues i
    let buf := buf ++ v
    influxTags p n (i + 1) buf

/-- The suffix that the type switch of lines 63-66 appends after a field value. -/
def influxSuffix (v : FieldValue) : Bytes :=
  match v with
  | .int _ => lit "i"
  | .int64 _ => lit "i"
  | _ => []

/-- The field loop of `SerializeInfluxBulk` (lines 55-72), entered with
`n = len(p.FieldKeys)` and `i = 0`. -/
def influxFields (p : Point) : Nat → Nat → Bytes → Except Fatal Bytes
  | 0, _, buf => .ok buf
  | n + 1, i, buf => do
    let k ← index p.FieldKeys i
    let buf := buf ++ k
    let buf := buf ++ charEquals
    let v ← index p.FieldValues i
    let buf ← fastFormatAppend v buf
    let buf := buf ++ influxSuffix v
    let buf := if i + 1 < p.FieldKeys.length then buf ++ charComma else buf
    influxFields p n (i + 1) buf

/-- The buffer built by `SerializeInfluxBulk` (lines 41-74), or the panic raised on the
way. -/
def influxBuf (p : Point) : Except Fatal Bytes := do
  let buf : Bytes := []
  let buf := buf ++ p.MeasurementName
  let buf ← influxTags p p.TagKeys.length 0 buf
  let buf := if p.FieldKeys.length > 0 then buf ++ charSpace else buf
  let buf ← influxFields p p.FieldKeys.length 0 buf
  pure (buf ++ (lit " " ++ fmtInt p.Timestamp ++ lit "\n"))

/-- `SerializeInfluxBulk`: from the state `s` of the sink to its new state and either the
panic or the returned error. -/
def SerializeInfluxBulk {σ ε : Type} (w : Writer σ ε) (p : Point) (s : σ) :
    σ × Except Fatal (Option ε) :=
  match influxBuf p with
  | .error f => (s, .error f)
  | .ok buf =>
    let r := w.Write s buf
    (r.1, .ok r.2)

/-- The action line, `fmt.Fprintf(w, action, p.MeasurementName)` (lines 91-92). -/
def esAction (p : Point) : Bytes :=
  lit "\x7b \"create\" : \x7b \"_index\" : \"" ++ p.MeasurementName ++
    lit "\", \"_type\" : \"point\" \x7d \x7d\n"

/-- The tag loop of `SerializeESBulk` (lines 100-106), entered with `n = len(p.TagKeys)`
and `i = 0`. -/
def esTags (p : Point) : Nat → Nat → Bytes → Except Fatal Bytes
  | 0, _, buf => .ok buf
  | n + 1, i, buf => do
    let buf := if i > 0 then buf ++ lit ", " else buf
    let k ← index p.TagKeys i
    let buf := buf ++ (lit "\"" ++ k ++ lit "\": ")
    let v ← index p.TagValues i
    let buf := buf ++ (lit "\"" ++ v ++ lit "\"")
    esTags p n (i + 1) buf

/-- The field loop of `SerializeESBulk` (lines 112-122), entered with
`n = len(p.FieldKeys)` and `i = 0`. -/
def esFields (p : Point) : Nat → Nat → Bytes → Except Fatal Bytes
  | 0, _, buf => .ok buf
  | n + 1, i, buf => do
    let buf := if i > 0 then buf ++ lit ", " else buf
    let buf := buf ++ lit "\""
    let k ← index p.FieldKeys i
    let buf := buf ++ k
    let buf := buf ++ lit "\": "
    let v ← index p.FieldValues i
    let buf ← fastFormatAppend v buf
    esFields p n (i + 1) buf

/-- The millisecond timestamp `p.Timestamp.UnixNano()/1e6` of line 128: the division of
Go integers, which truncates toward zero. -/
def esMillis (p : Point) : Int := Int.tdiv p.Timestamp 1000000

/-- The object line built by `SerializeESBulk` (lines 97-128), or the panic raised on the
way. -/
def esBuf (p : Point) : Except Fatal Bytes := do
  let buf : Bytes := []
  let buf := buf ++ lit "\x7b"
  let buf ← esTags p p.TagKeys.length 0 buf
  let buf := if p.TagKeys.length > 0 ∧ p.FieldKeys.length > 0 then buf ++ lit ", " else buf
  let buf ← esFields p p.FieldKeys.length 0 buf
  let buf := if p.TagKeys.length > 0 ∨ p.FieldKeys.length > 0 then buf ++ lit ", " else buf
  pure (buf ++ (lit "\"timestamp\": " ++ fmtInt (esMillis p) ++ lit " \x7d\n"))

/-- `SerializeESBulk`: the action line is written first; if that write fails its error is
returned, otherwise the object line is built and written. -/
def SerializeESBulk {σ ε : Type} (w : Writer σ ε) (p : Point) (s : σ) :
    σ × Except Fatal (Option ε) :=
  let r := w.Write s (esAction p)
  match r.2 with
  | some err => (r.1, .ok (some err))
  | none =>
    match esBuf p with
    | .error f => (r.1, .error f)
    | .ok buf =>
      let r2 := w.Write r.1 buf
      match r2.2 with
      | some err => (r2.1, .ok (some err))
      | none => (r2.1, .ok none)

/-! ## `cmd/tsbs_generate_queries/uses/iot`: the query fillers -/

/-- The capability interfaces the two fillers ask for.  Each declares one method, named
after the query category, that takes the query envelope. -/
inductive Capability
  | AvgVsProjectedFuelConsumptionFiller
  | TruckHighLoadFiller
  deriving DecidableEq

/-- A query envelope (`query.Query`), an interface value that refers to a mutable object:
it is modelled by the identity of that object. -/
abbrev Query := Nat

/-- The contents of the query envelopes, of type `E`, by identity. -/
abbrev Store (E : Type) := Query → E

/-- A backend query generator core, the dynamic value behind `utils.QueryGenerator`.
`method c` is `none` when the dynamic type does not implement the capability `c`, so that
the type assertion to `c` fails; otherwise it is the effect of the one method of `c` on the
envelopes, given the envelope passed.  A method is taken to return. -/
structure Core (E : Type) where
  typeName : String
  method : Capability → Option (Query → Store E → Store E)

/-- What a call of `Fill` may act on besides the filler: the contents of the envelopes, and
the log of the methods of the core invoked so far, each with the envelope it was invoked
on. -/
structure World (E : Type) where
  store : Store E
  calls : List (Capability × Query)

/-- The ways in which `Fill` panics: inside `common.PanicUnimplementedQuery`, with its
diagnostic, or by calling a method through a nil interface value. -/
inductive FillFatal
  | unimplementedQuery (diagnostic : String)
  | nilInterface
  deriving DecidableEq

/-- Modelled from the spec: `common.PanicUnimplementedQuery`, which is not among the
sources.  It fails fatally with a diagnostic that names the concrete backend type of the
core it is given (`some` diagnostic; `none` would be a return without panic). -/
def PanicUnimplementedQuery {E : Type} (core : Core E) : Option String :=
  some core.typeName

/-- The filler of trucks with high load queries. -/
structure TrucksWithHighLoad (E : Type) where
  core : Core E

/-- `NewTruckWithHighLoad`. -/
def NewTruckWithHighLoad {E : Type} (core : Core E) : TrucksWithHighLoad E :=
  { core := core }

/-- `(*TrucksWithHighLoad).Fill`: the filler, the world and the result after the call.
`unimplemented` is the behaviour of `common.PanicUnimplementedQuery`.  When the type
assertion fails `fc` is the nil interface value, so a return of
`common.PanicUnimplementedQuery` would be followed by the panic of the call
`fc.TrucksWithHighLoad(q)`. -/
def TrucksWithHighLoad.Fill {E : Type} (unimplemented : Core E → Option String)
    (i : TrucksWithHighLoad E) (q : Query) (w : World E) :
    TrucksWithHighLoad E × World E × Except FillFatal Query :=
  match i.core.method Capability.TruckHighLoadFiller with
  | none =>
    match unimplemented i.core with
    | some diagnostic => (i, w, .error (FillFatal.unimplementedQuery diagnostic))
    | none => (i, w, .error FillFatal.nilInterface)
  | some method =>
    (i, ⟨method q w.store, w.calls ++ [(Capability.TruckHighLoadFiller, q)]⟩, .ok q)

/-- The filler of average vs projected fuel consumption queries. -/
structure AvgVsProjectedFuelConsumption (E : Type) where
  core : Core E

/-- `NewAvgVsProjectedFuelConsumption`. -/
def NewAvgVsProjectedFuelConsumption {E : Type} (core : Core E) :
    AvgVsProjectedFuelConsumption E :=
  { core := core }

/-- `(*AvgVsProjectedFuelConsumption).Fill`, of the same shape with the capability
`AvgVsProjectedFuelConsumptionFiller`. -/
def AvgVsProjectedFuelConsumption.Fill {E : Type} (unimplemented : Core E → Option String)
    (i : AvgVsProjectedFuelConsumption E) (q : Query) (w : World E) :
    AvgVsProjectedFuelConsumption E × World E × Except FillFatal Query :=
  match i.core.method Capability.AvgVsProjectedFuelConsumptionFiller with
  | none =>
    match unimplemented i.core with
    | some diagnostic => (i, w, .error (FillFatal.unimplementedQuery diagnostic))
    | none => (i, w, .error FillFatal.nilInterface)
  | some method =>
    (i, ⟨method q w.store, w.calls ++ [(Capability.AvgVsProjectedFuelConsumptionFiller, q)]⟩,
      .ok q)

/-- The world in which every envelope holds 0 and no method has been invoked. -/
def emptyWorld : World Nat := ⟨fun _ => 0, []⟩

/-- A core that implements `TruckHighLoadFiller` only: its method writes 1 into the
envelope it is given. -/
def highLoadCore : Core Nat :=
  ⟨"highLoadOnly", fun c =>
    match c with
    | Capability.TruckHighLoadFiller => some (fun q st => Function.update st q 1)
    | Capability.AvgVsProjectedFuelConsumptionFiller => none⟩

/-- A core that implements `AvgVsProjectedFuelConsumptionFiller` only: its method writes 2
into the envelope it is given. -/
def avgFuelCore : Core Nat :=
  ⟨"avgFuelOnly", fun c =>
    match c with
    | Capability.TruckHighLoadFiller => none
    | Capability.AvgVsProjectedFuelConsumptionFiller => some (fun q st => Function.update st q 2)⟩

/-! ## `pkg/targets/initializers` and `pkg/query/factories`: the format registries -/

/-- Modelled from the spec: `constants.FormatTimescaleDB` (the package `constants` is not among the
sources), the exact literal string that names the backend. -/
def FormatTimescaleDB : String := "timescaledb"

/-- Modelled from the spec: `constants.FormatAkumuli` (the package `constants` is not among the
sources), the exact literal string that names the backend. -/
def FormatAkumuli : String := "akumuli"

/-- Modelled from the spec: `constants.FormatCassandra` (the package `constants` is not among the
sources), the exact literal string that names the backend. -/
def FormatCassandra : String := "cassandra"

/-- Modelled from the spec: `constants.FormatClickhouse` (the package `constants` is not among the
sources), the exact literal string that names the backend. -/
def FormatClickhouse : String := "clickhouse"

/-- Modelled from the spec: `constants.FormatCrateDB` (the package `constants` is not among the
sources), the exact literal string that names the backend. -/
def FormatCrateDB : String := "cratedb"

/-- Modelled from the spec: `constants.FormatInflux` (the package `constants` is not among the
sources), the exact literal string that names the backend. -/
def FormatInflux : String := "influx"

/-- Modelled from the spec: `constants.FormatMongo` (the package `constants` is not among the
sources), the exact literal string that names the backend. -/
def FormatMongo : String := "mongo"

/-- Modelled from the spec: `constants.FormatPrometheus` (the package `constants` is not among the
sources), the exact literal string that names the backend. -/
def FormatPrometheus : String := "prometheus"

/-- Modelled from the spec: `constants.FormatSiriDB` (the package `constants` is not among the
sources), the exact literal string that names the backend. -/
def FormatSiriDB : String := "siridb"

/-- Modelled from the spec: `constants.FormatVictoriaMetrics` (the package `constants` is not among the
sources), the exact literal string that names the backend. -/
def FormatVictoriaMetrics : String := "victoriametrics"

/-- Modelled from the spec: `constants.FormatTimestream` (the package `constants` is not among the
sources), the exact literal string that names the backend. -/
def FormatTimestream : String := "timestream"

/-- Modelled from the spec: `constants.FormatQuestDB` (the package `constants` is not among the
sources), the exact literal string that names the backend. -/
def FormatQuestDB : String := "questdb"

/-- Modelled from the spec: `constants.SupportedFormats()`, which is not among the sources.
The diagnostic of a failed lookup lists all registered identifiers. -/
def SupportedFormats : List String :=
  [FormatTimescaleDB, FormatAkumuli, FormatCassandra, FormatClickhouse, FormatCrateDB,
    FormatInflux, FormatMongo, FormatPrometheus, FormatSiriDB, FormatVictoriaMetrics,
    FormatTimestream, FormatQuestDB]

/-- The adapters (`targets.ImplementedTarget`): for each backend package the result of its
`NewTarget()`. -/
inductive Target
  | timescaledb
  | akumuli
  | cassandra
  | clickhouse
  | crate
  | influx
  | mongo
  | prometheus
  | siridb
  | victoriametrics
  | timestream
  | questdb
  deriving DecidableEq

/-- `GetTarget`: the adapter of the first case of the switch that equals `format`, and
otherwise the panic with its diagnostic. -/
def GetTarget (format : String) : Except String Target :=
  if format = FormatTimescaleDB then .ok Target.timescaledb
  else if format = FormatAkumuli then .ok Target.akumuli
  else if format = FormatCassandra then .ok Target.cassandra
  else if format = FormatClickhouse then .ok Target.clickhouse
  else if format = FormatCrateDB then .ok Target.crate
  else if format = FormatInflux then .ok Target.influx
  else if format = FormatMongo then .ok Target.mongo
  else if format = FormatPrometheus then .ok Target.prometheus
  else if format = FormatSiriDB then .ok Target.siridb
  else if format = FormatVictoriaMetrics then .ok Target.victoriametrics
  else if format = FormatTimestream then .ok Target.timestream
  else if format = FormatQuestDB then .ok Target.questdb
  else
    let supportedFormatsStr := String.intercalate "," SupportedFormats
    .error ("Unrecognized format " ++ format ++ ", supported: " ++ supportedFormatsStr)

/-- The fields of `config.QueryGeneratorConfig` that `InitQueryFactories` reads. -/
structure QueryGeneratorConfig where
  ClickhouseUseTags : Bool
  TimescaleUseJSON : Bool
  TimescaleUseTags : Bool
  TimescaleUseTimeBucket : Bool
  MongoUseNaive : Bool
  DbName : String
  deriving DecidableEq

/-- The generators stored in the registry: for each backend package its `BaseGenerator`,
with the fields that `InitQueryFactories` sets. -/
inductive BaseGenerator
  | cassandra
  | clickhouse (UseTags : Bool)
  | cratedb
  | influx
  | timescaledb (UseJSON UseTags UseTimeBucket : Bool)
  | siridb
  | mongo (UseNaive : Bool)
  | akumuli
  | victoriametrics
  | timestream (DBName : String)
  | questdb
  deriving DecidableEq

/-- A Go map from strings to generators: the entries, with at most one per key. -/
abbrev Factories := List (String × BaseGenerator)

/-- The assignment `m[k] = v`: replaces the entry under `k`, or adds one. -/
def Factories.set (m : Factories) (k : String) (v : BaseGenerator) : Factories :=
  if m.any (fun e => e.1 == k) then m.map (fun e => if e.1 = k then (k, v) else e)
  else m ++ [(k, v)]

/-- The lookup `m[k]`. -/
def Factories.get (m : Factories) (k : String) : Option BaseGenerator := List.lookup k m

/-- The keys of the map. -/
def Factories.keys (m : Factories) : List String := m.map Prod.fst

/-- `InitQueryFactories`. -/
def InitQueryFactories (config : QueryGeneratorConfig) : Factories :=
  let factories : Factories := []
  let factories := factories.set FormatCassandra BaseGenerator.cassandra
  let factories := factories.set FormatClickhouse
    (BaseGenerator.clickhouse config.ClickhouseUseTags)
  let factories := factories.set FormatCrateDB BaseGenerator.cratedb
  let factories := factories.set FormatInflux BaseGenerator.influx
  let factories := factories.set FormatTimescaleDB
    (BaseGenerator.timescaledb config.TimescaleUseJSON config.TimescaleUseTags
      config.TimescaleUseTimeBucket)
  let factories := factories.set FormatSiriDB BaseGenerator.siridb
  let factories := factories.set FormatMongo (BaseGenerator.mongo config.MongoUseNaive)
  let factories := factories.set FormatAkumuli BaseGenerator.akumuli
  let factories := factories.set FormatVictoriaMetrics BaseGenerator.victoriametrics
  let factories := factories.set FormatTimestream (BaseGenerator.timestream config.DbName)
  let factories := factories.set FormatQuestDB BaseGenerator.questdb
  factories

/-- The configuration with every switch off and the database name `benchmark`. -/
def exampleConfig : QueryGeneratorConfig := ⟨false, false, false, false, false, "benchmark"⟩

/-! ## The encodings in the words of the specification -/

/-- The pieces `xs` joined by the separator `sep`; nothing precedes the first piece or
follows the last one. -/
def joinWith (sep : Bytes) : List Bytes → Bytes
  | [] => []
  | [x] => x
  | x :: y :: rest => x ++ sep ++ joinWith sep (y :: rest)

/-- A field value is of known type when it is not of the kind `other`. -/
def FieldValue.known (v : FieldValue) : Prop := v ≠ FieldValue.other

instance (v : FieldValue) : Decidable v.known := by
  unfold FieldValue.known; infer_instance

/-- Integer values: `int` and `int64`. -/
def FieldValue.isInteger : FieldValue → Bool
  | .int _ => true
  | .int64 _ => true
  | _ => false

/-- The rendered text of a field value: decimal for integers, fixed notation with 16
fractional digits for floats, `true` or `false` for booleans, the bytes themselves for
strings. -/
def renderValue : FieldValue → Bytes
  | .int v => fmtInt v
  | .int64 v => fmtInt v
  | .float64 bits => fmtFloat float64info bits
  | .float32 bits => fmtFloat float32info bits
  | .bool b => fmtBool b
  | .bytes b => b
  | .string s => s
  | .other => []

/-- A tag segment of the line-oriented encoding: `,key=value`. -/
def influxTag (k v : Bytes) : Bytes := lit "," ++ k ++ lit "=" ++ v

/-- A field assignment of the line-oriented encoding: `key=value`, with the marker `i`
after an integer value. -/
def influxAssignment (k : Bytes) (v : FieldValue) : Bytes :=
  k ++ lit "=" ++ renderValue v ++ (if v.isInteger then lit "i" else [])

/-- The line of the line-oriented encoding: the measurement, the tag segments, a space if
there is a field, the field assignments joined by commas, a space, the nanosecond
timestamp and a newline. -/
def influxLine (p : Point) : Bytes :=
  p.MeasurementName ++ (List.zipWith influxTag p.TagKeys p.TagValues).flatten ++
    (if p.FieldKeys.length > 0 then lit " " else []) ++
    joinWith (lit ",") (List.zipWith influxAssignment p.FieldKeys p.FieldValues) ++
    lit " " ++ fmtInt p.Timestamp ++ lit "\n"

/-- A Point whose tag values and field values pair up with the keys and whose field values
are all of known type. -/
def Point.wellFormed (p : Point) : Prop :=
  p.TagKeys.length = p.TagValues.length ∧ p.FieldKeys.length = p.FieldValues.length ∧
    ∀ v ∈ p.FieldValues, v.known

instance (p : Point) : Decidable p.wellFormed := by
  unfold Point.wellFormed; infer_instance

/-- The outcome of a call that writes `b` to the sink once and returns what the write
returns. -/
def writeOnce {σ ε : Type} (w : Writer σ ε) (s : σ) (b : Bytes) : σ × Except Fatal (Option ε) :=
  ((w.Write s b).1, .ok (w.Write s b).2)

/-- The outcome of a call that writes `a`, returns the error of that write if it fails, and
otherwise writes `b` and returns what that write returns. -/
def writeTwice {σ ε : Type} (w : Writer σ ε) (s : σ) (a b : Bytes) :
    σ × Except Fatal (Option ε) :=
  match (w.Write s a).2 with
  | some err => ((w.Write s a).1, .ok (some err))
  | none => writeOnce w (w.Write s a).1 b

/-- The action header of the bulk-action encoding, without its newline. -/
def esHeader (p : Point) : Bytes :=
  lit "\x7b \"create\" : \x7b \"_index\" : \"" ++ p.MeasurementName ++
    lit "\", \"_type\" : \"point\" \x7d \x7d"

/-- A tag item of the object line: the key and the value, both in double quotes. -/
def esTagItem (k v : Bytes) : Bytes := lit "\"" ++ k ++ lit "\": " ++ (lit "\"" ++ v ++ lit "\"")

/-- A field item of the object line: the key in double quotes and the rendered value. -/
def esFieldItem (k : Bytes) (v : FieldValue) : Bytes := lit "\"" ++ k ++ lit "\": " ++ renderValue v

/-- The timestamp item of the object line. -/
def esTimestampItem (ms : Int) : Bytes := lit "\"timestamp\": " ++ fmtInt ms

/-- The items of the object line: the tags, the fields, and last the timestamp in
milliseconds (the nanoseconds divided by 1000000, truncated toward zero). -/
def esItems (p : Point) : List Bytes :=
  List.zipWith esTagItem p.TagKeys p.TagValues ++
    List.zipWith esFieldItem p.FieldKeys p.FieldValues ++
    [esTimestampItem (Int.tdiv p.Timestamp 1000000)]

/-- The object line of the bulk-action encoding. -/
def esObject (p : Point) : Bytes :=
  lit "\x7b" ++ joinWith (lit ", ") (esItems p) ++ lit " \x7d\n"

/-- The bytes that occur in the text of a float. -/
def floatBytes : Bytes := lit "+-.0123456789INafn"

/-- The Point `foo,tag0=bar baz=-1.0 100` of the comment above `SerializeInfluxBulk`: one
tag, one `float64` field of value -1 and the timestamp 100 ns. -/
def examplePoint : Point :=
  ⟨lit "foo", [lit "tag0"], [lit "bar"], [lit "baz"], [.float64 0xBFF0000000000000], 100⟩

/-- A Point with an `int` field, an `int64` field, a `float64` field (0.1) and a `float32`
field (positive infinity). -/
def mixedPoint : Point :=
  ⟨lit "cpu", [lit "host"], [lit "h1"], [lit "a", lit "b", lit "c", lit "d"],
    [.int 7, .int64 (-3), .float64 0x3FB999999999999A, .float32 0x7F800000], 1500000⟩

/-- A Point without tags and fields, one nanosecond before the Unix epoch. -/
def beforeEpochPoint : Point := ⟨lit "m", [], [], [], [], -1⟩

/-- The newline byte. -/
def newline : UInt8 := byte '\n'

/-- A field value holds no newline byte: a condition on `string` and `[]byte` values only. -/
def FieldValue.noNewline : FieldValue → Prop
  | .bytes b => newline ∉ b
  | .string s => newline ∉ s
  | _ => True

instance (v : FieldValue) : Decidable v.noNewline := by
  cases v <;> simp only [FieldValue.noNewline] <;> infer_instance

/-- No newline byte occurs in the measurement name, the tag keys, the tag values, the field
keys and the string field values of the Point. -/
def Point.noNewline (p : Point) : Prop :=
  newline ∉ p.MeasurementName ∧ (∀ k ∈ p.TagKeys, newline ∉ k) ∧
    (∀ v ∈ p.TagValues, newline ∉ v) ∧ (∀ k ∈ p.FieldKeys, newline ∉ k) ∧
    ∀ v ∈ p.FieldValues, v.noNewline

instance (p : Point) : Decidable p.noNewline := by
  unfold Point.noNewline; infer_instance

/-- A Point without tags and fields whose measurement name holds a newline byte. -/
def newlinePoint : Point := ⟨lit "a\nb", [], [], [], [], 0⟩

/-- A Point whose only field is the string `x` under the key `f`. -/
def stringFieldPoint : Point := ⟨lit "m", [], [], [lit "f"], [.string (lit "x")], 0⟩

/-- The exact value of the finite float whose IEEE bit pattern, in the format `flt`, is
`bits`: the mantissa (with its implicit bit unless the exponent field is zero) times the
power of two of the unbiased exponent, with the sign of the sign bit. -/
def floatValue (flt : floatInfo) (bits : Nat) : ℚ :=
  let bits := bits % 2 ^ (1 + flt.expbits + flt.mantbits)
  let neg : Bool := bits / 2 ^ (flt.expbits + flt.mantbits) != 0
  let exp := bits / 2 ^ flt.mantbits % 2 ^ flt.expbits
  let mant := bits % 2 ^ flt.mantbits
  let mant := if exp = 0 then mant else mant + 2 ^ flt.mantbits
  let exp := if exp = 0 then 1 else exp
  let mag : ℚ := (mant : ℚ) * (2 : ℚ) ^ ((exp : Int) + flt.bias - (flt.mantbits : Int))
  if neg then -mag else mag

/-- The bit pattern is that of a finite float: its exponent field is not all ones. -/
def floatFinite (flt : floatInfo) (bits : Nat) : Prop :=
  bits % 2 ^ (1 + flt.expbits + flt.mantbits) / 2 ^ flt.mantbits % 2 ^ flt.expbits ≠
    2 ^ flt.expbits - 1

instance (flt : floatInfo) (bits : Nat) : Decidable (floatFinite flt bits) := by
  unfold floatFinite; infer_instance

/-- A sink that keeps the bytes of every call of `Write`, in order; its first `good` calls
succeed and the later ones return an error. -/
def callLog (good : Nat) : Writer (List Bytes) String :=
  ⟨fun s b => (s ++ [b], if s.length < good then none else some "write failed")⟩

/-- The Record Model asks for a non-empty measurement and for keys that are unique within
the record. -/
def Point.valid (p : Point) : Prop :=
  p.MeasurementName ≠ [] ∧ p.TagKeys.Nodup ∧ p.FieldKeys.Nodup

instance (p : Point) : Decidable p.valid := by
  unfold Point.valid; infer_instance

/-- The Point with measurement `a,b=c`, no tags and no fields. -/
def commaPoint : Point := ⟨lit "a,b=c", [], [], [], [], 0⟩

/-- The Point with measurement `a`, the tag `b` of value `c` and no fields. -/
def tagPoint : Point := ⟨lit "a", [lit "b"], [lit "c"], [], [], 0⟩

/-- A Point with at least as many tag values as tag keys, at least as many field values as
field keys, and field values of known type. -/
def Point.enoughValues (p : Point) : Prop :=
  p.TagKeys.length ≤ p.TagValues.length ∧ p.FieldKeys.length ≤ p.FieldValues.length ∧
    ∀ v ∈ p.FieldValues, v.known

instance (p : Point) : Decidable p.enoughValues := by
  unfold Point.enoughValues; infer_instance

/-- A Point with fewer tag values than tag keys, or fewer field values than field keys. -/
def Point.fewValues (p : Point) : Prop :=
  p.TagValues.length < p.TagKeys.length ∨ p.FieldValues.length < p.FieldKeys.length

instance (p : Point) : Decidable p.fewValues := by
  unfold Point.fewValues; infer_instance

/-- A Point with a field, at a position below the number of field keys, whose value is of
none of the known types. -/
def Point.hasUnknownField (p : Point) : Prop :=
  ∃ i, i < p.FieldKeys.length ∧ p.FieldValues[i]? = some FieldValue.other

instance (p : Point) : Decidable p.hasUnknownField := by
  unfold Point.hasUnknownField; infer_instance

/-- A Point whose second field holds a value of unknown type. -/
def unknownFieldPoint : Point :=
  ⟨lit "m", [lit "k"], [lit "v"], [lit "a", lit "b"], [.int 1, .other], 0⟩

/-- A Point with one tag key and no tag value. -/
def shortPoint : Point := ⟨lit "m", [lit "k"], [], [], [], 0⟩

/-- A Point with one tag value and one field value more than it has keys. -/
def surplusPoint : Point :=
  ⟨lit "m", [lit "k"], [lit "v", lit "w"], [lit "f"], [.int 1, .int 2], 0⟩

/-- The Point without its surplus values: the tag values and the field values cut to the
number of keys. -/
def Point.truncate (p : Point) : Point :=
  { p with
    TagValues := p.TagValues.take p.TagKeys.length
    FieldValues := p.FieldValues.take p.FieldKeys.length }

/-- The value of a decimal digit byte, if the byte is one. -/
def digitValue (b : UInt8) : Option Nat :=
  if 48 ≤ b.toNat ∧ b.toNat ≤ 57 then some (b.toNat - 48) else none

/-- The natural number denoted by a run of decimal digits, read after the digits that gave
`acc`; `none` if a byte is not a digit. -/
def parseDigits : Nat → Bytes → Option Nat
  | acc, [] => some acc
  | acc, b :: rest =>
    match digitValue b with
    | some d => parseDigits (10 * acc + d) rest
    | none => none

/-- The number denoted by a text in fixed notation: an optional minus sign, the digits of
the integer part, a point and the digits of the fraction. -/
def parseFixed (text : Bytes) : Option ℚ :=
  let neg : Bool := text.head? == some (byte '-')
  let body := if neg then text.tail else text
  let intPart := body.takeWhile (fun b => b != byte '.')
  let rest := body.dropWhile (fun b => b != byte '.')
  match rest with
  | [] => none
  | _ :: frac =>
    if intPart = [] ∨ frac = [] then none
    else
      match parseDigits 0 intPart, parseDigits 0 frac with
      | some i, some f =>
        let mag : ℚ := (i : ℚ) + (f : ℚ) / 10 ^ frac.length
        some (if neg then -mag else mag)
      | _, _ => none

/-! ## Theorems -/

theorem index_eq {α : Type} (xs : List α) (i : Nat) (h : i < xs.length) :
    index xs i = .ok xs[i] := by
  simp [index, List.getElem?_eq_getElem h]

theorem influxTags_eq (p : Point) (h : p.TagKeys.length = p.TagValues.length) :
    ∀ (n i : Nat) (buf : Bytes), i + n = p.TagKeys.length →
      influxTags p n i buf =
        .ok (buf ++ (List.zipWith influxTag (p.TagKeys.drop i) (p.TagValues.drop i)).flatten) := by
  intro n
  induction n with
  | zero =>
    intro i buf hi
    have : p.TagKeys.drop i = [] := List.drop_eq_nil_of_le (by omega)
    simp [influxTags, this]
  | succ n ih =>
    intro i buf hi
    have h1 : i < p.TagKeys.length := by omega
    have h2 : i < p.TagValues.length := by omega
    rw [List.drop_eq_getElem_cons h1, List.drop_eq_getElem_cons h2]
    simp only [influxTags, index_eq _ _ h1, index_eq _ _ h2, bind, Except.bind]
    rw [ih (i + 1) _ (by omega)]
    simp only [influxTag, charComma, charEquals, List.append_assoc, List.zipWith_cons_cons,
      List.flatten_cons]

theorem fastFormatAppend_eq (v : FieldValue) (buf : Bytes) (h : v.known) :
    fastFormatAppend v buf = .ok (buf ++ renderValue v) := by
  cases v <;> first | rfl | exact absurd rfl h

theorem influxSuffix_eq (v : FieldValue) :
    influxSuffix v = if v.isInteger then lit "i" else [] := by
  cases v <;> rfl

theorem joinWith_cons (sep x : Bytes) (rest : List Bytes) (h : rest ≠ []) :
    joinWith sep (x :: rest) = x ++ sep ++ joinWith sep rest := by
  cases rest with
  | nil => exact absurd rfl h
  | cons y r => rfl

theorem zipWith_drop_ne_nil {α β γ : Type} (f : α → β → γ) (ks : List α) (vs : List β) (i : Nat)
    (h1 : i < ks.length) (h2 : i < vs.length) :
    List.zipWith f (ks.drop i) (vs.drop i) ≠ [] := by
  apply List.ne_nil_of_length_pos
  simp only [List.length_zipWith, List.length_drop]
  omega

theorem influxFields_eq (p : Point) (h : p.FieldKeys.length = p.FieldValues.length)
    (hk : ∀ v ∈ p.FieldValues, v.known) :
    ∀ (n i : Nat) (buf : Bytes), i + n = p.FieldKeys.length →
      influxFields p n i buf =
        .ok (buf ++ joinWith (lit ",")
          (List.zipWith influxAssignment (p.FieldKeys.drop i) (p.FieldValues.drop i))) := by
  intro n
  induction n with
  | zero =>
    intro i buf hi
    have : p.FieldKeys.drop i = [] := List.drop_eq_nil_of_le (by omega)
    simp [influxFields, this, joinWith]
  | succ n ih =>
    intro i buf hi
    have h1 : i < p.FieldKeys.length := by omega
    have h2 : i < p.FieldValues.length := by omega
    have hv : (p.FieldValues[i]).known := hk _ (List.getElem_mem h2)
    rw [List.drop_eq_getElem_cons h1, List.drop_eq_getElem_cons h2]
    simp only [influxFields, index_eq _ _ h1, index_eq _ _ h2, bind, Except.bind,
      fastFormatAppend_eq _ _ hv, influxSuffix_eq]
    rw [ih (i + 1) _ (by omega)]
    by_cases hlast : i + 1 < p.FieldKeys.length
    · have hne := zipWith_drop_ne_nil influxAssignment p.FieldKeys p.FieldValues (i + 1)
        hlast (by omega)
      simp only [hlast, if_true, List.zipWith_cons_cons, joinWith_cons _ _ _ hne,
        influxAssignment, charComma, charEquals, List.append_assoc]
    · have hnil : p.FieldKeys.drop (i + 1) = [] := List.drop_eq_nil_of_le (by omega)
      simp only [hlast, if_false, List.zipWith_cons_cons, hnil, List.zipWith_nil_left, joinWith,
        influxAssignment, charEquals, List.append_assoc, List.append_nil]

theorem influxBuf_eq (p : Point) (hp : p.wellFormed) : influxBuf p = .ok (influxLine p) := by
  obtain ⟨ht, hf, hk⟩ := hp
  have e1 := influxTags_eq p ht p.TagKeys.length 0 ([] ++ p.MeasurementName) (by omega)
  have e2 := fun buf => influxFields_eq p hf hk p.FieldKeys.length 0 buf (by omega)
  simp only [List.drop_zero] at e1 e2
  simp only [influxBuf, e1, e2, bind, Except.bind, pure, Except.pure, influxLine, charSpace]
  split_ifs <;> simp [List.append_assoc]

/-- C1. For every Point with as many tag values as tag keys, as many field values as field
keys and field values of known type, and for every sink, `SerializeInfluxBulk` performs one
write whose bytes are exactly the measurement, the tag segments `,key=value` in order, a
space if there is at least one field, the field assignments joined by commas (with `i`
after integer values), a space, the decimal nanosecond timestamp and a newline, and
returns what the write returns.  With no tags and no fields these bytes are the
measurement, a space, the timestamp and a newline. -/
theorem SerializeInfluxBulk_writes_line {σ ε : Type} (w : Writer σ ε) (p : Point) (s : σ)
    (hp : p.wellFormed) :
    SerializeInfluxBulk w p s = writeOnce w s (influxLine p) ∧
      (p.TagKeys = [] → p.FieldKeys = [] →
        influxLine p = p.MeasurementName ++ lit " " ++ fmtInt p.Timestamp ++ lit "\n") := by
  constructor
  · simp only [SerializeInfluxBulk, influxBuf_eq p hp, writeOnce]
  · intro h1 h2
    simp [influxLine, h1, h2, joinWith]

theorem joinWith_cons_eq (sep : Bytes) (rest : List Bytes) :
    ∀ x : Bytes, joinWith sep (x :: rest) = x ++ (rest.map (fun y => sep ++ y)).flatten := by
  induction rest with
  | nil => intro x; simp [joinWith]
  | cons y r ih =>
    intro x
    rw [joinWith_cons _ _ _ (List.cons_ne_nil y r), ih y]
    simp [List.append_assoc]

theorem joinWith_append (sep : Bytes) (xs ys : List Bytes) (hx : xs ≠ []) (hy : ys ≠ []) :
    joinWith sep (xs ++ ys) = joinWith sep xs ++ sep ++ joinWith sep ys := by
  obtain ⟨x, xs, rfl⟩ := List.exists_cons_of_ne_nil hx
  obtain ⟨y, ys, rfl⟩ := List.exists_cons_of_ne_nil hy
  rw [List.cons_append, joinWith_cons_eq, joinWith_cons_eq, joinWith_cons_eq]
  simp [List.append_assoc]

theorem esTags_succ (p : Point) (h : p.TagKeys.length = p.TagValues.length) :
    ∀ (n i : Nat) (buf : Bytes), i + 1 + n = p.TagKeys.length →
      esTags p n (i + 1) buf =
        .ok (buf ++ ((List.zipWith esTagItem (p.TagKeys.drop (i + 1))
          (p.TagValues.drop (i + 1))).map (fun y => lit ", " ++ y)).flatten) := by
  intro n
  induction n with
  | zero =>
    intro i buf hi
    have : p.TagKeys.drop (i + 1) = [] := List.drop_eq_nil_of_le (by omega)
    simp [esTags, this]
  | succ n ih =>
    intro i buf hi
    have h1 : i + 1 < p.TagKeys.length := by omega
    have h2 : i + 1 < p.TagValues.length := by omega
    rw [List.drop_eq_getElem_cons h1, List.drop_eq_getElem_cons h2]
    simp only [esTags, index_eq _ _ h1, index_eq _ _ h2, bind, Except.bind]
    rw [ih (i + 1) _ (by omega)]
    simp only [Nat.succ_pos, gt_iff_lt, if_true, List.zipWith_cons_cons, List.map_cons,
      List.flatten_cons, esTagItem, List.append_assoc]

theorem esTags_eq (p : Point) (h : p.TagKeys.length = p.TagValues.length) (buf : Bytes) :
    esTags p p.TagKeys.length 0 buf =
      .ok (buf ++ joinWith (lit ", ") (List.zipWith esTagItem p.TagKeys p.TagValues)) := by
  cases hn : p.TagKeys.length with
  | zero =>
    have : p.TagKeys = [] := List.length_eq_zero.mp hn
    simp [esTags, this, joinWith]
  | succ n =>
    have h1 : 0 < p.TagKeys.length := by omega
    have h2 : 0 < p.TagValues.length := by omega
    have e := esTags_succ p h n 0
    simp only [esTags, index_eq _ _ h1, index_eq _ _ h2, bind, Except.bind]
    rw [e _ (by omega)]
    conv_rhs => rw [← List.drop_zero (l := p.TagKeys), ← List.drop_zero (l := p.TagValues),
      List.drop_eq_getElem_cons h1, List.drop_eq_getElem_cons h2, List.zipWith_cons_cons,
      joinWith_cons_eq]
    simp only [lt_irrefl, gt_iff_lt, if_false, esTagItem, List.append_assoc, Nat.zero_add]

theorem esFields_succ (p : Point) (h : p.FieldKeys.length = p.FieldValues.length)
    (hk : ∀ v ∈ p.FieldValues, v.known) :
    ∀ (n i : Nat) (buf : Bytes), i + 1 + n = p.FieldKeys.length →
      esFields p n (i + 1) buf =
        .ok (buf ++ ((List.zipWith esFieldItem (p.FieldKeys.drop (i + 1))
          (p.FieldValues.drop (i + 1))).map (fun y => lit ", " ++ y)).flatten) := by
  intro n
  induction n with
  | zero =>
    intro i buf hi
    have : p.FieldKeys.drop (i + 1) = [] := List.drop_eq_nil_of_le (by omega)
    simp [esFields, this]
  | succ n ih =>
    intro i buf hi
    have h1 : i + 1 < p.FieldKeys.length := by omega
    have h2 : i + 1 < p.FieldValues.length := by omega
    have hv : (p.FieldValues[i + 1]).known := hk _ (List.getElem_mem h2)
    rw [List.drop_eq_getElem_cons h1, List.drop_eq_getElem_cons h2]
    simp only [esFields, index_eq _ _ h1, index_eq _ _ h2, bind, Except.bind,
      fastFormatAppend_eq _ _ hv]
    rw [ih (i + 1) _ (by omega)]
    simp only [Nat.succ_pos, gt_iff_lt, if_true, List.zipWith_cons_cons, List.map_cons,
      List.flatten_cons, esFieldItem, List.append_assoc]

theorem esFields_eq (p : Point) (h : p.FieldKeys.length = p.FieldValues.length)
    (hk : ∀ v ∈ p.FieldValues, v.known) (buf : Bytes) :
    esFields p p.FieldKeys.length 0 buf =
      .ok (buf ++ joinWith (lit ", ") (List.zipWith esFieldItem p.FieldKeys p.FieldValues)) := by
  cases hn : p.FieldKeys.length with
  | zero =>
    have : p.FieldKeys = [] := List.length_eq_zero.mp hn
    simp [esFields, this, joinWith]
  | succ n =>
    have h1 : 0 < p.FieldKeys.length := by omega
    have h2 : 0 < p.FieldValues.length := by omega
    have hv : (p.FieldValues[0]).known := hk _ (List.getElem_mem h2)
    have e := esFields_succ p h hk n 0
    simp only [esFields, index_eq _ _ h1, index_eq _ _ h2, bind, Except.bind,
      fastFormatAppend_eq _ _ hv]
    rw [e _ (by omega)]
    conv_rhs => rw [← List.drop_zero (l := p.FieldKeys), ← List.drop_zero (l := p.FieldValues),
      List.drop_eq_getElem_cons h1, List.drop_eq_getElem_cons h2, List.zipWith_cons_cons,
      joinWith_cons_eq]
    simp only [lt_irrefl, gt_iff_lt, if_false, esFieldItem, List.append_assoc, Nat.zero_add]

theorem joinWith_items (sep : Bytes) (T F : List Bytes) (x : Bytes) :
    joinWith sep (T ++ F ++ [x]) =
      joinWith sep T ++ (if T ≠ [] ∧ F ≠ [] then sep else []) ++ joinWith sep F ++
        (if T ≠ [] ∨ F ≠ [] then sep else []) ++ x := by
  cases T with
  | nil =>
    cases F with
    | nil => simp [joinWith]
    | cons f fs =>
      rw [List.nil_append, joinWith_append _ _ _ (List.cons_ne_nil _ _) (List.cons_ne_nil _ _)]
      simp [joinWith, List.append_assoc]
  | cons t ts =>
    cases F with
    | nil =>
      rw [List.append_nil, joinWith_append _ _ _ (List.cons_ne_nil _ _) (List.cons_ne_nil _ _)]
      simp [joinWith, List.append_assoc]
    | cons f fs =>
      rw [List.append_assoc,
        joinWith_append _ _ _ (List.cons_ne_nil _ _) (by simp),
        joinWith_append _ _ _ (List.cons_ne_nil _ _) (List.cons_ne_nil _ _)]
      simp [joinWith, List.append_assoc]

theorem zipWith_ne_nil_iff {α β γ : Type} (f : α → β → γ) (ks : List α) (vs : List β)
    (h : ks.length = vs.length) : List.zipWith f ks vs ≠ [] ↔ ks.length > 0 := by
  cases ks with
  | nil => simp
  | cons k ks =>
    cases vs with
    | nil => simp at h
    | cons v vs => simp

theorem esBuf_eq (p : Point) (hp : p.wellFormed) : esBuf p = .ok (esObject p) := by
  obtain ⟨ht, hf, hk⟩ := hp
  simp only [esBuf, esTags_eq p ht, esFields_eq p hf hk, bind, Except.bind, pure, Except.pure,
    esObject, esItems, esMillis, joinWith_items, zipWith_ne_nil_iff _ _ _ ht,
    zipWith_ne_nil_iff _ _ _ hf]
  split_ifs <;> simp [esTimestampItem, List.append_assoc]

/-- C2. For every Point with as many tag values as tag keys, as many field values as field
keys and field values of known type, and for every sink, `SerializeESBulk` writes the
action header naming the measurement, followed by a newline, and then (if that write
succeeded) the object line: an opening brace, the items joined by a comma and a space, and
a space, a closing brace and a newline, where the items are every tag as quoted key and
quoted value, every field as quoted key and rendered value, and last the timestamp in
milliseconds.  With no tags and no fields the object line holds the timestamp item alone,
with no separator. -/
theorem SerializeESBulk_writes_lines {σ ε : Type} (w : Writer σ ε) (p : Point) (s : σ)
    (hp : p.wellFormed) :
    SerializeESBulk w p s = writeTwice w s (esHeader p ++ lit "\n") (esObject p) ∧
      (p.TagKeys = [] → p.FieldKeys = [] →
        esObject p = lit "\x7b\"timestamp\": " ++ fmtInt (Int.tdiv p.Timestamp 1000000) ++
          lit " \x7d\n") := by
  constructor
  · have ha : esAction p = esHeader p ++ lit "\n" := by
      simp only [esAction, esHeader, List.append_assoc]
      rfl
    simp only [SerializeESBulk, esBuf_eq p hp, ha, writeTwice, writeOnce]
    cases (w.Write s (esHeader p ++ lit "\n")).2 with
    | some err => rfl
    | none =>
      simp only
      cases (w.Write (w.Write s (esHeader p ++ lit "\n")).1 (esObject p)).2 <;> rfl
  · intro h1 h2
    simp [esObject, esItems, h1, h2, joinWith, esTimestampItem, List.append_assoc]
    rfl

/-- An instance at the example Point. -/
theorem SerializeInfluxBulk_writes_line_witness :
    examplePoint.wellFormed ∧
      SerializeInfluxBulk bufferWriter examplePoint [] =
        writeOnce bufferWriter [] (influxLine examplePoint) :=
  ⟨by decide, (SerializeInfluxBulk_writes_line bufferWriter examplePoint [] (by decide)).1⟩

/-- An instance at the example Point. -/
theorem SerializeESBulk_writes_lines_witness :
    examplePoint.wellFormed ∧
      SerializeESBulk bufferWriter examplePoint [] =
        writeTwice bufferWriter [] (esHeader examplePoint ++ lit "\n") (esObject examplePoint) :=
  ⟨by decide, (SerializeESBulk_writes_lines bufferWriter examplePoint [] (by decide)).1⟩

theorem digitByte_eq_digitChar (n : Nat) : digitByte n = byte (Nat.digitChar (n % 10)) := by
  have h : n % 10 < 10 := Nat.mod_lt _ (by decide)
  unfold digitByte
  generalize n % 10 = r at h
  interval_cases r <;> rfl

theorem natDigits_eq_toDigitsCore : ∀ (fuel n : Nat) (acc : List Char),
    natDigits fuel n (acc.map byte) = (Nat.toDigitsCore 10 fuel n acc).map byte := by
  intro fuel
  induction fuel with
  | zero => intro n acc; rfl
  | succ fuel ih =>
    intro n acc
    simp only [natDigits, Nat.toDigitsCore, digitByte_eq_digitChar]
    split_ifs
    · rfl
    · rw [← ih]; rfl

theorem fmtNat_eq_toDigits (n : Nat) : fmtNat n = (Nat.toDigits 10 n).map byte :=
  natDigits_eq_toDigitsCore (n + 1) n []

theorem toNat_toUInt8 (n : Nat) : (Nat.toUInt8 n).toNat = n % 256 := rfl

theorem digitByte_mem (d : Nat) : digitByte d ∈ lit "0123456789" := by
  have h : d % 10 < 10 := Nat.mod_lt _ (by decide)
  unfold digitByte
  generalize d % 10 = r at h
  interval_cases r <;> decide

theorem natDigits_mem : ∀ (fuel n : Nat) (acc : Bytes) (b : UInt8),
    b ∈ natDigits fuel n acc → b ∈ acc ∨ b ∈ lit "0123456789" := by
  intro fuel
  induction fuel with
  | zero => intro n acc b h; exact Or.inl h
  | succ fuel ih =>
    intro n acc b h
    simp only [natDigits] at h
    split_ifs at h
    · rcases List.mem_cons.mp h with h | h
      · exact Or.inr (h ▸ digitByte_mem n)
      · exact Or.inl h
    · rcases ih _ _ _ h with h | h
      · rcases List.mem_cons.mp h with h | h
        · exact Or.inr (h ▸ digitByte_mem n)
        · exact Or.inl h
      · exact Or.inr h

theorem fmtNat_mem (n : Nat) (b : UInt8) (h : b ∈ fmtNat n) : b ∈ lit "0123456789" := by
  rcases natDigits_mem _ _ _ _ h with h | h
  · simp at h
  · exact h

theorem fixedDigits_mem : ∀ (width n : Nat) (b : UInt8),
    b ∈ fixedDigits width n → b ∈ lit "0123456789" := by
  intro width
  induction width with
  | zero => intro n b h; simp [fixedDigits] at h
  | succ width ih =>
    intro n b h
    simp only [fixedDigits, List.mem_append, List.mem_singleton] at h
    rcases h with h | h
    · exact ih _ _ h
    · exact h ▸ digitByte_mem n

theorem digit_floatBytes (b : UInt8) (h : b ∈ lit "0123456789") : b ∈ floatBytes := by
  revert b
  decide

theorem fmtF_mem (neg : Bool) (n : Nat) (b : UInt8) (h : b ∈ fmtF neg n) : b ∈ floatBytes := by
  simp only [fmtF, List.mem_append] at h
  rcases h with ((h | h) | h) | h
  · cases neg
    · simp at h
    · revert b; decide
  · exact digit_floatBytes _ (fmtNat_mem _ _ h)
  · revert b; decide
  · exact digit_floatBytes _ (fixedDigits_mem _ _ _ h)

theorem fmtF_ne_nil (neg : Bool) (n : Nat) : fmtF neg n ≠ [] := by
  simp [fmtF, fixedDigits]

theorem fmtFloat_cases (flt : floatInfo) (bits : Nat) :
    fmtFloat flt bits = lit "NaN" ∨ fmtFloat flt bits = lit "-Inf" ∨
      fmtFloat flt bits = lit "+Inf" ∨ ∃ neg n, fmtFloat flt bits = fmtF neg n := by
  simp only [fmtFloat]
  split_ifs
  · exact Or.inl rfl
  · exact Or.inr (Or.inl rfl)
  · exact Or.inr (Or.inr (Or.inl rfl))
  · exact Or.inr (Or.inr (Or.inr ⟨_, _, rfl⟩))
  · exact Or.inr (Or.inr (Or.inr ⟨_, _, rfl⟩))

theorem fmtFloat_mem (flt : floatInfo) (bits : Nat) (b : UInt8) (h : b ∈ fmtFloat flt bits) :
    b ∈ floatBytes := by
  rcases fmtFloat_cases flt bits with e | e | e | ⟨neg, n, e⟩ <;> rw [e] at h
  · revert b; decide
  · revert b; decide
  · revert b; decide
  · exact fmtF_mem _ _ _ h

theorem fmtFloat_ne_nil (flt : floatInfo) (bits : Nat) : fmtFloat flt bits ≠ [] := by
  rcases fmtFloat_cases flt bits with e | e | e | ⟨neg, n, e⟩ <;> rw [e]
  · decide
  · decide
  · decide
  · exact fmtF_ne_nil _ _

theorem getLast?_append_float (pre : Bytes) (flt : floatInfo) (bits : Nat) :
    (pre ++ fmtFloat flt bits).getLast? ≠ some (byte 'i') := by
  rw [List.getLast?_append_of_ne_nil _ (fmtFloat_ne_nil flt bits)]
  intro h
  have hm := fmtFloat_mem flt bits _ (List.mem_of_mem_getLast? h)
  revert hm
  decide

/-- C3. In the line written by `SerializeInfluxBulk` for a Point with paired keys and values
of known type, the field assignment at every position is the key, `=`, and the rendered
value followed by the marker: for an integer value (`int` or `int64`) it is the key, `=`,
the decimal value and `i`, so it ends with the byte `i`; for a float value (`float64` or
`float32`, NaN and the infinities included) it is the key, `=` and the text of the float
with nothing after it, and it does not end with the byte `i`. -/
theorem influx_integer_marker {σ ε : Type} (w : Writer σ ε) (p : Point) (s : σ)
    (hp : p.wellFormed) :
    SerializeInfluxBulk w p s = writeOnce w s (influxLine p) ∧
      ∀ (i : Nat) (k : Bytes) (v : FieldValue),
        p.FieldKeys[i]? = some k → p.FieldValues[i]? = some v →
          (List.zipWith influxAssignment p.FieldKeys p.FieldValues)[i]? =
              some (influxAssignment k v) ∧
            (∀ n : Int, v = .int n ∨ v = .int64 n →
              influxAssignment k v = k ++ lit "=" ++ fmtInt n ++ lit "i" ∧
                (influxAssignment k v).getLast? = some (byte 'i')) ∧
            (∀ bits : Nat, v = .float64 bits →
              influxAssignment k v = k ++ lit "=" ++ fmtFloat float64info bits ∧
                (influxAssignment k v).getLast? ≠ some (byte 'i')) ∧
            (∀ bits : Nat, v = .float32 bits →
              influxAssignment k v = k ++ lit "=" ++ fmtFloat float32info bits ∧
                (influxAssignment k v).getLast? ≠ some (byte 'i')) := by
  refine ⟨by simp only [SerializeInfluxBulk, influxBuf_eq p hp, writeOnce], ?_⟩
  intro i k v hk hv
  refine ⟨by simp [List.getElem?_zipWith, hk, hv], ?_, ?_, ?_⟩
  · intro n hn
    have e : influxAssignment k v = (k ++ lit "=" ++ fmtInt n) ++ [byte 'i'] := by
      rcases hn with rfl | rfl <;> rfl
    exact ⟨e, by rw [e, List.getLast?_concat]⟩
  · intro bits hb
    subst hb
    have e : influxAssignment k (.float64 bits) = k ++ lit "=" ++ fmtFloat float64info bits := by
      simp [influxAssignment, renderValue, FieldValue.isInteger]
    exact ⟨e, by rw [e]; exact getLast?_append_float _ _ _⟩
  · intro bits hb
    subst hb
    have e : influxAssignment k (.float32 bits) = k ++ lit "=" ++ fmtFloat float32info bits := by
      simp [influxAssignment, renderValue, FieldValue.isInteger]
    exact ⟨e, by rw [e]; exact getLast?_append_float _ _ _⟩

/-- An instance at a Point with integer and float fields. -/
theorem influx_integer_marker_witness :
    mixedPoint.wellFormed ∧
      SerializeInfluxBulk bufferWriter mixedPoint [] =
        writeOnce bufferWriter [] (influxLine mixedPoint) ∧
      (influxAssignment (lit "a") (.int 7)).getLast? = some (byte 'i') ∧
      (influxAssignment (lit "c") (.float64 0x3FB999999999999A)).getLast? ≠ some (byte 'i') :=
  have h := influx_integer_marker bufferWriter mixedPoint [] (by decide)
  ⟨by decide, h.1, ((h.2 0 (lit "a") (.int 7) rfl rfl).2.1 7 (Or.inl rfl)).2,
    ((h.2 2 (lit "c") (.float64 0x3FB999999999999A) rfl rfl).2.2.1 _ rfl).2⟩

theorem esBuf_suffix (p : Point) (buf : Bytes) (h : esBuf p = .ok buf) :
    ∃ pre, buf = pre ++
      (lit "\"timestamp\": " ++ fmtInt (Int.tdiv p.Timestamp 1000000) ++ lit " \x7d\n") := by
  simp only [esBuf, bind, Except.bind, pure, Except.pure, esMillis] at h
  split at h
  · cases h
  · split at h
    · cases h
    · injection h with h
      exact ⟨_, h.symm⟩

theorem tdiv_of_neg (a : Int) (h : a < 0) (hd : ¬ (1000000 : Int) ∣ a) :
    Int.tdiv a 1000000 = a / 1000000 + 1 := by
  have e : a = -(-a) := by omega
  have hm : a % 1000000 ≠ 0 := fun h0 => hd (Int.dvd_of_emod_eq_zero h0)
  rw [e, Int.neg_tdiv, Int.tdiv_eq_ediv (by omega) (by decide)]
  omega

/-- C4, as the code has it. Whenever `SerializeESBulk` returns on the recording sink, the
bytes received end with the timestamp item, a space, a closing brace and a newline, and the
value of that item is the nanosecond timestamp divided by 1000000 and truncated toward
zero.  That value is the floor of the quotient for a timestamp at or after the epoch, and
the floor plus one for a timestamp before the epoch that is not a whole number of
milliseconds. -/
theorem es_timestamp_truncates (p : Point) (s out : Bytes) (r : Option Unit)
    (h : SerializeESBulk bufferWriter p s = (out, .ok r)) :
    (∃ pre, out = pre ++
      (lit "\"timestamp\": " ++ fmtInt (Int.tdiv p.Timestamp 1000000) ++ lit " \x7d\n")) ∧
      (0 ≤ p.Timestamp → Int.tdiv p.Timestamp 1000000 = ⌊(p.Timestamp : ℚ) / 1000000⌋) ∧
      (p.Timestamp < 0 → ¬ (1000000 : Int) ∣ p.Timestamp →
        Int.tdiv p.Timestamp 1000000 = ⌊(p.Timestamp : ℚ) / 1000000⌋ + 1) := by
  have hfloor : ⌊(p.Timestamp : ℚ) / 1000000⌋ = p.Timestamp / 1000000 := by
    have := Rat.floor_intCast_div_natCast p.Timestamp 1000000
    simpa using this
  refine ⟨?_, ?_, ?_⟩
  · simp only [SerializeESBulk, bufferWriter] at h
    split at h
    · cases h
    · rename_i buf hb
      obtain ⟨pre, hpre⟩ := esBuf_suffix p buf hb
      injection h with h1 h2
      exact ⟨s ++ esAction p ++ pre, by rw [← h1, hpre]; simp only [List.append_assoc]⟩
  · intro h0
    rw [hfloor, Int.tdiv_eq_ediv h0 (by decide)]
  · intro h0 hd
    rw [hfloor, tdiv_of_neg _ h0 hd]

/-- An instance at the Point one nanosecond before the epoch. -/
theorem es_timestamp_truncates_witness :
    SerializeESBulk bufferWriter beforeEpochPoint [] =
        (esAction beforeEpochPoint ++ lit "\x7b\"timestamp\": 0 \x7d\n", .ok none) ∧
      ∃ pre, esAction beforeEpochPoint ++ lit "\x7b\"timestamp\": 0 \x7d\n" = pre ++
        (lit "\"timestamp\": " ++ fmtInt (Int.tdiv beforeEpochPoint.Timestamp 1000000) ++
          lit " \x7d\n") :=
  ⟨by decide, (es_timestamp_truncates beforeEpochPoint [] _ none (by decide)).1⟩

/-- C4 fails as stated: one nanosecond before the epoch the floor of the quotient is -1,
and the timestamp item written by `SerializeESBulk` is 0. -/
theorem es_timestamp_not_floor :
    ⌊(beforeEpochPoint.Timestamp : ℚ) / 1000000⌋ = -1 ∧
      SerializeESBulk bufferWriter beforeEpochPoint [] =
        (esAction beforeEpochPoint ++ lit "\x7b\"timestamp\": 0 \x7d\n", .ok none) ∧
      SerializeESBulk bufferWriter beforeEpochPoint [] ≠
        (esAction beforeEpochPoint ++ lit "\x7b\"timestamp\": -1 \x7d\n", .ok none) := by
  refine ⟨?_, by decide, by decide⟩
  have := Rat.floor_intCast_div_natCast (-1) 1000000
  simpa [beforeEpochPoint] using this

theorem mem_joinWith (sep : Bytes) (b : UInt8) :
    ∀ xs : List Bytes, b ∈ joinWith sep xs → b ∈ sep ∨ ∃ x ∈ xs, b ∈ x := by
  intro xs
  induction xs with
  | nil => intro h; simp [joinWith] at h
  | cons x rest ih =>
    intro h
    cases rest with
    | nil => exact Or.inr ⟨x, List.mem_cons_self _ _, by simpa [joinWith] using h⟩
    | cons y r =>
      rw [joinWith_cons _ _ _ (List.cons_ne_nil _ _)] at h
      simp only [List.mem_append] at h
      rcases h with (h | h) | h
      · exact Or.inr ⟨x, List.mem_cons_self _ _, h⟩
      · exact Or.inl h
      · rcases ih h with h | ⟨z, hz, hb⟩
        · exact Or.inl h
        · exact Or.inr ⟨z, List.mem_cons_of_mem _ hz, hb⟩

theorem mem_zipWith {α β γ : Type} (f : α → β → γ) (x : γ) :
    ∀ (ks : List α) (vs : List β), x ∈ List.zipWith f ks vs → ∃ k ∈ ks, ∃ v ∈ vs, x = f k v := by
  intro ks
  induction ks with
  | nil => intro vs h; simp at h
  | cons k ks ih =>
    intro vs h
    cases vs with
    | nil => simp at h
    | cons v vs =>
      rw [List.zipWith_cons_cons, List.mem_cons] at h
      rcases h with h | h
      · exact ⟨k, List.mem_cons_self _ _, v, List.mem_cons_self _ _, h⟩
      · obtain ⟨k2, hk2, v2, hv2, e⟩ := ih vs h
        exact ⟨k2, List.mem_cons_of_mem _ hk2, v2, List.mem_cons_of_mem _ hv2, e⟩

theorem fmtInt_mem (v : Int) (b : UInt8) (h : b ∈ fmtInt v) : b ∈ floatBytes := by
  simp only [fmtInt] at h
  split_ifs at h
  · rw [List.mem_append] at h
    rcases h with h | h
    · revert b; decide
    · exact digit_floatBytes _ (fmtNat_mem _ _ h)
  · exact digit_floatBytes _ (fmtNat_mem _ _ h)

theorem newline_not_floatBytes : newline ∉ floatBytes := by decide

theorem renderValue_noNewline (v : FieldValue) (h : v.noNewline) : newline ∉ renderValue v := by
  cases v with
  | int n => exact fun hm => newline_not_floatBytes (fmtInt_mem _ _ hm)
  | int64 n => exact fun hm => newline_not_floatBytes (fmtInt_mem _ _ hm)
  | float64 bits => exact fun hm => newline_not_floatBytes (fmtFloat_mem _ _ _ hm)
  | float32 bits => exact fun hm => newline_not_floatBytes (fmtFloat_mem _ _ _ hm)
  | bool b => cases b <;> decide
  | bytes b => exact h
  | string s => exact h
  | other => simp [renderValue]

theorem esItems_noNewline (p : Point) (hn : p.noNewline) (x : Bytes) (hx : x ∈ esItems p) :
    newline ∉ x := by
  obtain ⟨_, htk, htv, hfk, hfv⟩ := hn
  simp only [esItems, List.mem_append, List.mem_singleton] at hx
  rcases hx with (hx | hx) | hx
  · obtain ⟨k, hk, v, hv, rfl⟩ := mem_zipWith _ _ _ _ hx
    have h1 := htk k hk
    have h2 := htv v hv
    have h3 : newline ∉ lit "\"" := by decide
    have h4 : newline ∉ lit "\": " := by decide
    simp [esTagItem, h1, h2, h3, h4]
  · obtain ⟨k, hk, v, hv, rfl⟩ := mem_zipWith _ _ _ _ hx
    have h1 := hfk k hk
    have h2 := renderValue_noNewline v (hfv v hv)
    have h3 : newline ∉ lit "\"" := by decide
    have h4 : newline ∉ lit "\": " := by decide
    simp [esFieldItem, h1, h2, h3, h4]
  · subst hx
    have h1 : newline ∉ lit "\"timestamp\": " := by decide
    have h2 : newline ∉ fmtInt (Int.tdiv p.Timestamp 1000000) :=
      fun hm => newline_not_floatBytes (fmtInt_mem _ _ hm)
    simp [esTimestampItem, h1, h2]

/-- C5, as the code has it. For every Point with paired keys and values of known type in
which no newline byte occurs in the measurement name, the tag keys, the tag values, the
field keys and the string field values, the bytes that `SerializeESBulk` writes are two
lines: the header, a newline, the object and a newline, where neither the header nor the
object holds a newline byte; so there are exactly two newline bytes and the second one is
the last byte written. -/
theorem SerializeESBulk_two_lines (p : Point) (hp : p.wellFormed) (hn : p.noNewline) :
    ∃ object : Bytes,
      SerializeESBulk bufferWriter p [] =
          (esHeader p ++ [newline] ++ object ++ [newline], .ok none) ∧
        newline ∉ esHeader p ∧ newline ∉ object ∧
        (esHeader p ++ [newline] ++ object ++ [newline]).count newline = 2 ∧
        (esHeader p ++ [newline] ++ object ++ [newline]).getLast? = some newline := by
  have hh : newline ∉ esHeader p := by
    have h1 : newline ∉ lit "\x7b \"create\" : \x7b \"_index\" : \"" := by decide
    have h2 : newline ∉ lit "\", \"_type\" : \"point\" \x7d \x7d" := by decide
    simp [esHeader, h1, h2, hn.1]
  have ho : newline ∉ lit "\x7b" ++ joinWith (lit ", ") (esItems p) ++ lit " \x7d" := by
    have h1 : newline ∉ lit "\x7b" := by decide
    have h2 : newline ∉ lit " \x7d" := by decide
    have h3 : newline ∉ joinWith (lit ", ") (esItems p) := by
      intro hm
      rcases mem_joinWith _ _ _ hm with h | ⟨x, hx, hb⟩
      · revert h; decide
      · exact esItems_noNewline p hn x hx hb
    simp [h1, h2, h3]
  refine ⟨lit "\x7b" ++ joinWith (lit ", ") (esItems p) ++ lit " \x7d", ?_, hh, ho, ?_, ?_⟩
  · have ha : esAction p = esHeader p ++ [newline] := by
      simp only [esAction, esHeader, List.append_assoc]
      rfl
    have hb : esObject p =
        lit "\x7b" ++ joinWith (lit ", ") (esItems p) ++ lit " \x7d" ++ [newline] := by
      simp only [esObject, List.append_assoc]
      rfl
    simp only [SerializeESBulk, esBuf_eq p hp, bufferWriter, ha, hb, List.nil_append,
      List.append_assoc]
  · simp only [List.count_append, List.count_eq_zero_of_not_mem hh,
      List.count_eq_zero_of_not_mem ho]
    rfl
  · rw [List.getLast?_concat]

/-- An instance at the example Point. -/
theorem SerializeESBulk_two_lines_witness :
    examplePoint.wellFormed ∧ examplePoint.noNewline ∧
      ∃ object : Bytes,
        SerializeESBulk bufferWriter examplePoint [] =
            (esHeader examplePoint ++ [newline] ++ object ++ [newline], .ok none) ∧
          newline ∉ esHeader examplePoint ∧ newline ∉ object ∧
          (esHeader examplePoint ++ [newline] ++ object ++ [newline]).count newline = 2 ∧
          (esHeader examplePoint ++ [newline] ++ object ++ [newline]).getLast? = some newline :=
  ⟨by decide, by decide, SerializeESBulk_two_lines examplePoint (by decide) (by decide)⟩

/-- C5 fails as stated: for the Point with measurement name `a`, newline, `b`, no tags and
no fields, `SerializeESBulk` writes three newline bytes. -/
theorem SerializeESBulk_three_newlines :
    newlinePoint.wellFormed ∧
      ∃ out : Bytes, SerializeESBulk bufferWriter newlinePoint [] = (out, .ok none) ∧
        out.count newline = 3 :=
  ⟨by decide, _, rfl, by decide⟩

/-- C6, at the failing input. For the Point whose only field is the string `x` under the
key `f`, the object line written by `SerializeESBulk` holds the value bare, without the
double quotes that enclose a tag value. -/
theorem SerializeESBulk_string_field_bare :
    SerializeESBulk bufferWriter stringFieldPoint [] =
        (esAction stringFieldPoint ++ lit "\x7b\"f\": x, \"timestamp\": 0 \x7d\n", .ok none) ∧
      SerializeESBulk bufferWriter stringFieldPoint [] ≠
        (esAction stringFieldPoint ++ lit "\x7b\"f\": \"x\", \"timestamp\": 0 \x7d\n",
          .ok none) :=
  ⟨by decide, by decide⟩

/-- C7. For each of the two fillers, whatever `common.PanicUnimplementedQuery` does, and
for every core that does not implement the capability of that filler (whether or not it
implements the other one), `Fill` ends in a panic, so it returns no envelope, and the
filler, the contents of the envelopes and the log of invoked methods are as they were: no
method of the core has been invoked.  With `common.PanicUnimplementedQuery` as the
specification has it, the panic carries its diagnostic. -/
theorem Fill_without_capability {E : Type} (unimplemented : Core E → Option String)
    (core : Core E) (q : Query) (w : World E) :
    (core.method Capability.AvgVsProjectedFuelConsumptionFiller = none →
        (∃ f, (NewAvgVsProjectedFuelConsumption core).Fill unimplemented q w =
          (NewAvgVsProjectedFuelConsumption core, w, .error f)) ∧
          (NewAvgVsProjectedFuelConsumption core).Fill PanicUnimplementedQuery q w =
            (NewAvgVsProjectedFuelConsumption core, w,
              .error (FillFatal.unimplementedQuery core.typeName))) ∧
      (core.method Capability.TruckHighLoadFiller = none →
        (∃ f, (NewTruckWithHighLoad core).Fill unimplemented q w =
          (NewTruckWithHighLoad core, w, .error f)) ∧
          (NewTruckWithHighLoad core).Fill PanicUnimplementedQuery q w =
            (NewTruckWithHighLoad core, w,
              .error (FillFatal.unimplementedQuery core.typeName))) := by
  constructor
  · intro h
    simp only [AvgVsProjectedFuelConsumption.Fill, NewAvgVsProjectedFuelConsumption, h,
      PanicUnimplementedQuery, and_true]
    cases unimplemented core with
    | none => exact ⟨_, rfl⟩
    | some d => exact ⟨_, rfl⟩
  · intro h
    simp only [TrucksWithHighLoad.Fill, NewTruckWithHighLoad, h, PanicUnimplementedQuery,
      and_true]
    cases unimplemented core with
    | none => exact ⟨_, rfl⟩
    | some d => exact ⟨_, rfl⟩

/-- An instance: each filler on a core that implements the capability of the other filler
only. -/
theorem Fill_without_capability_witness :
    highLoadCore.method Capability.AvgVsProjectedFuelConsumptionFiller = none ∧
      avgFuelCore.method Capability.TruckHighLoadFiller = none ∧
      (NewAvgVsProjectedFuelConsumption highLoadCore).Fill PanicUnimplementedQuery 5
          emptyWorld =
        (NewAvgVsProjectedFuelConsumption highLoadCore, emptyWorld,
          .error (FillFatal.unimplementedQuery "highLoadOnly")) ∧
      (NewTruckWithHighLoad avgFuelCore).Fill PanicUnimplementedQuery 5 emptyWorld =
        (NewTruckWithHighLoad avgFuelCore, emptyWorld,
          .error (FillFatal.unimplementedQuery "avgFuelOnly")) :=
  ⟨rfl, rfl,
    ((Fill_without_capability PanicUnimplementedQuery highLoadCore 5 emptyWorld).1 rfl).2,
    ((Fill_without_capability PanicUnimplementedQuery avgFuelCore 5 emptyWorld).2 rfl).2⟩

/-- C8. For each of the two fillers and every core that implements the capability of that
filler, `Fill(q)` returns the envelope `q` it was given; the log of invoked methods grows
by exactly one entry, the method of that capability on `q`; the contents of the envelopes
are what that one call makes of them; and the filler, with the core it stores, is
unchanged. -/
theorem Fill_with_capability {E : Type} (unimplemented : Core E → Option String)
    (core : Core E) (q : Query) (w : World E) (method : Query → Store E → Store E) :
    (core.method Capability.AvgVsProjectedFuelConsumptionFiller = some method →
        (NewAvgVsProjectedFuelConsumption core).Fill unimplemented q w =
          (NewAvgVsProjectedFuelConsumption core,
            ⟨method q w.store,
              w.calls ++ [(Capability.AvgVsProjectedFuelConsumptionFiller, q)]⟩, .ok q)) ∧
      (core.method Capability.TruckHighLoadFiller = some method →
        (NewTruckWithHighLoad core).Fill unimplemented q w =
          (NewTruckWithHighLoad core,
            ⟨method q w.store, w.calls ++ [(Capability.TruckHighLoadFiller, q)]⟩, .ok q)) := by
  constructor
  · intro h
    simp only [AvgVsProjectedFuelConsumption.Fill, NewAvgVsProjectedFuelConsumption, h]
  · intro h
    simp only [TrucksWithHighLoad.Fill, NewTruckWithHighLoad, h]

/-- An instance: each filler on a core that implements its capability; the envelope 5 is
returned, the log holds the one call, and the envelope 5 holds what the method wrote. -/
theorem Fill_with_capability_witness :
    ((NewAvgVsProjectedFuelConsumption avgFuelCore).Fill PanicUnimplementedQuery 5
        emptyWorld).2.2 = .ok 5 ∧
      ((NewAvgVsProjectedFuelConsumption avgFuelCore).Fill PanicUnimplementedQuery 5
        emptyWorld).2.1.calls = [(Capability.AvgVsProjectedFuelConsumptionFiller, 5)] ∧
      ((NewAvgVsProjectedFuelConsumption avgFuelCore).Fill PanicUnimplementedQuery 5
        emptyWorld).2.1.store 5 = 2 ∧
      ((NewTruckWithHighLoad highLoadCore).Fill PanicUnimplementedQuery 5
        emptyWorld).2.2 = .ok 5 ∧
      ((NewTruckWithHighLoad highLoadCore).Fill PanicUnimplementedQuery 5
        emptyWorld).2.1.calls = [(Capability.TruckHighLoadFiller, 5)] ∧
      ((NewTruckWithHighLoad highLoadCore).Fill PanicUnimplementedQuery 5
        emptyWorld).2.1.store 5 = 1 :=
  have h1 := (Fill_with_capability PanicUnimplementedQuery avgFuelCore 5 emptyWorld
    (fun q st => Function.update st q 2)).1 rfl
  have h2 := (Fill_with_capability PanicUnimplementedQuery highLoadCore 5 emptyWorld
    (fun q st => Function.update st q 1)).2 rfl
  ⟨by rw [h1], by rw [h1]; rfl, by rw [h1]; simp [emptyWorld],
    by rw [h2], by rw [h2]; rfl, by rw [h2]; simp [emptyWorld]⟩

theorem GetTarget_of_not_mem (format : String) (h : format ∉ SupportedFormats) :
    GetTarget format = .error ("Unrecognized format " ++ format ++ ", supported: " ++
      String.intercalate "," SupportedFormats) := by
  simp only [SupportedFormats, List.mem_cons, List.mem_singleton, not_or, List.not_mem_nil,
    not_false_eq_true, and_true] at h
  obtain ⟨h1, h2, h3, h4, h5, h6, h7, h8, h9, h10, h11, h12⟩ := h
  simp only [GetTarget, if_neg h1, if_neg h2, if_neg h3, if_neg h4, if_neg h5, if_neg h6,
    if_neg h7, if_neg h8, if_neg h9, if_neg h10, if_neg h11, if_neg h12]

theorem exists_ok_of_toBool {ε α : Type} (x : Except ε α) (h : x.toBool = true) :
    ∃ t, x = .ok t := by
  cases x with
  | ok t => exact ⟨t, rfl⟩
  | error e => cases h

theorem GetTarget_of_mem (format : String) (h : format ∈ SupportedFormats) :
    ∃ t, GetTarget format = .ok t := by
  simp only [SupportedFormats, List.mem_cons, List.mem_singleton, List.not_mem_nil,
    or_false] at h
  rcases h with h | h | h | h | h | h | h | h | h | h | h | h <;> subst h <;>
    exact exists_ok_of_toBool _ (by decide)

theorem GetTarget_ok_iff (format : String) :
    (∃ t, GetTarget format = .ok t) ↔ format ∈ SupportedFormats := by
  constructor
  · rintro ⟨t, ht⟩
    by_contra hn
    rw [GetTarget_of_not_mem format hn] at ht
    cases ht
  · exact GetTarget_of_mem format

theorem SupportedFormats_eq :
    SupportedFormats = ["timescaledb", "akumuli", "cassandra", "clickhouse", "cratedb",
      "influx", "mongo", "prometheus", "siridb", "victoriametrics", "timestream",
      "questdb"] := rfl

/-- C9. `GetTarget(format)` returns an adapter if and only if `format` is one of the twelve
identifiers timescaledb, akumuli, cassandra, clickhouse, cratedb, influx, mongo,
prometheus, siridb, victoriametrics, timestream and questdb, and then the adapter is the
one of that backend (a function of `format` alone); for every other string it panics,
returning no adapter, with the diagnostic `Unrecognized format`, the string, `, supported:`
and the supported identifiers joined by commas, among which is every identifier that
`GetTarget` accepts. -/
theorem GetTarget_registry (format : String) :
    ((∃ t, GetTarget format = .ok t) ↔
        format ∈ ["timescaledb", "akumuli", "cassandra", "clickhouse", "cratedb", "influx",
          "mongo", "prometheus", "siridb", "victoriametrics", "timestream", "questdb"]) ∧
      (GetTarget "timescaledb" = .ok Target.timescaledb ∧
        GetTarget "akumuli" = .ok Target.akumuli ∧
        GetTarget "cassandra" = .ok Target.cassandra ∧
        GetTarget "clickhouse" = .ok Target.clickhouse ∧
        GetTarget "cratedb" = .ok Target.crate ∧
        GetTarget "influx" = .ok Target.influx ∧
        GetTarget "mongo" = .ok Target.mongo ∧
        GetTarget "prometheus" = .ok Target.prometheus ∧
        GetTarget "siridb" = .ok Target.siridb ∧
        GetTarget "victoriametrics" = .ok Target.victoriametrics ∧
        GetTarget "timestream" = .ok Target.timestream ∧
        GetTarget "questdb" = .ok Target.questdb) ∧
      ((¬ ∃ t, GetTarget format = .ok t) →
        GetTarget format = .error ("Unrecognized format " ++ format ++ ", supported: " ++
          String.intercalate "," SupportedFormats)) ∧
      ((∃ t, GetTarget format = .ok t) → format ∈ SupportedFormats) := by
  refine ⟨?_, ?_, ?_, ?_⟩
  · rw [GetTarget_ok_iff, SupportedFormats_eq]
  · exact ⟨by decide, by decide, by decide, by decide, by decide, by decide, by decide,
      by decide, by decide, by decide, by decide, by decide⟩
  · intro h
    exact GetTarget_of_not_mem format (fun hm => h (GetTarget_of_mem format hm))
  · exact (GetTarget_ok_iff format).mp

/-- An instance: the identifier `elastic` is not registered, and the
lookup panics with the diagnostic. -/
theorem GetTarget_registry_witness :
    (¬ ∃ t, GetTarget "elastic" = .ok t) ∧
      GetTarget "elastic" = .error ("Unrecognized format " ++ "elastic" ++ ", supported: " ++
        String.intercalate "," SupportedFormats) :=
  have hn : ¬ ∃ t, GetTarget "elastic" = .ok t := by
    rw [GetTarget_ok_iff]; decide
  ⟨hn, (GetTarget_registry "elastic").2.2.1 hn⟩

theorem InitQueryFactories_eq (c : QueryGeneratorConfig) :
    InitQueryFactories c =
      [("cassandra", BaseGenerator.cassandra),
        ("clickhouse", BaseGenerator.clickhouse c.ClickhouseUseTags),
        ("cratedb", BaseGenerator.cratedb),
        ("influx", BaseGenerator.influx),
        ("timescaledb", BaseGenerator.timescaledb c.TimescaleUseJSON c.TimescaleUseTags
          c.TimescaleUseTimeBucket),
        ("siridb", BaseGenerator.siridb),
        ("mongo", BaseGenerator.mongo c.MongoUseNaive),
        ("akumuli", BaseGenerator.akumuli),
        ("victoriametrics", BaseGenerator.victoriametrics),
        ("timestream", BaseGenerator.timestream c.DbName),
        ("questdb", BaseGenerator.questdb)] := by
  simp [InitQueryFactories, Factories.set, FormatCassandra, FormatClickhouse, FormatCrateDB,
    FormatInflux, FormatTimescaleDB, FormatSiriDB, FormatMongo, FormatAkumuli,
    FormatVictoriaMetrics, FormatTimestream, FormatQuestDB]

theorem lookup_some_mem (k : String) (g : BaseGenerator) :
    ∀ m : Factories, List.lookup k m = some g → k ∈ m.map Prod.fst := by
  intro m
  induction m with
  | nil => intro h; simp [List.lookup] at h
  | cons e rest ih =>
    intro h
    obtain ⟨a, b⟩ := e
    by_cases hk : k = a
    · simp [hk]
    · have hb : (k == a) = false := by simpa using hk
      rw [List.lookup, hb] at h
      exact List.mem_cons_of_mem _ (ih h)

theorem InitQueryFactories_keys (c : QueryGeneratorConfig) :
    (InitQueryFactories c).keys =
      ["cassandra", "clickhouse", "cratedb", "influx", "timescaledb", "siridb", "mongo",
        "akumuli", "victoriametrics", "timestream", "questdb"] := by
  rw [InitQueryFactories_eq]; rfl

theorem InitQueryFactories_get_keys (c : QueryGeneratorConfig) (k : String)
    (h : k ∈ (InitQueryFactories c).keys) : ∃ g, (InitQueryFactories c).get k = some g := by
  rw [InitQueryFactories_keys] at h
  rw [InitQueryFactories_eq, Factories.get]
  simp only [List.mem_cons, List.mem_singleton, List.not_mem_nil, or_false] at h
  rcases h with h | h | h | h | h | h | h | h | h | h | h <;> subst h <;>
    exact Option.isSome_iff_exists.mp (by simp [List.lookup])

/-- C10, as the code has it. For every configuration and every format identifier, the map
returned by `InitQueryFactories` holds a generator under the identifier if and only if
`GetTarget` returns an adapter for it and it is not prometheus; and every key of the map is
an identifier for which `GetTarget` returns an adapter. -/
theorem factories_match_targets (c : QueryGeneratorConfig) (format : String) :
    ((∃ g, (InitQueryFactories c).get format = some g) ↔
        (∃ t, GetTarget format = .ok t) ∧ format ≠ "prometheus") ∧
      ∀ k ∈ (InitQueryFactories c).keys, ∃ t, GetTarget k = .ok t := by
  have hkeys : ∀ k ∈ (InitQueryFactories c).keys,
      (∃ t, GetTarget k = .ok t) ∧ k ≠ "prometheus" := by
    intro k hk
    rw [InitQueryFactories_keys] at hk
    simp only [List.mem_cons, List.mem_singleton, List.not_mem_nil, or_false] at hk
    rcases hk with h | h | h | h | h | h | h | h | h | h | h <;> subst h <;>
      exact ⟨exists_ok_of_toBool _ (by decide), by decide⟩
  refine ⟨⟨?_, ?_⟩, fun k hk => (hkeys k hk).1⟩
  · rintro ⟨g, hg⟩
    exact hkeys format (lookup_some_mem format g _ hg)
  · rintro ⟨ht, hne⟩
    apply InitQueryFactories_get_keys
    rw [InitQueryFactories_keys]
    have hm := (GetTarget_ok_iff format).mp ht
    rw [SupportedFormats_eq] at hm
    simp only [List.mem_cons, List.mem_singleton, List.not_mem_nil, or_false] at hm ⊢
    tauto

/-- C10 fails as stated: `GetTarget` returns an adapter for prometheus, and the map
returned by `InitQueryFactories` holds no generator under that identifier. -/
theorem factories_lack_prometheus :
    GetTarget "prometheus" = .ok Target.prometheus ∧
      (InitQueryFactories exampleConfig).get "prometheus" = none :=
  ⟨by decide, by decide⟩

/-- C13. For every configuration `c` the map returned by `InitQueryFactories` has exactly
the eleven keys cassandra, clickhouse, cratedb, influx, timescaledb, siridb, mongo,
akumuli, victoriametrics, timestream and questdb, each once, whatever `c` is; the
clickhouse generator has `UseTags` of `c.ClickhouseUseTags`, the timescaledb generator has
`UseJSON`, `UseTags` and `UseTimeBucket` of `c.TimescaleUseJSON`, `c.TimescaleUseTags` and
`c.TimescaleUseTimeBucket`, the mongo generator has `UseNaive` of `c.MongoUseNaive`, the
timestream generator has `DBName` of `c.DbName`, and the other generators carry nothing. -/
theorem InitQueryFactories_entries (c : QueryGeneratorConfig) (k : String) :
    (k ∈ (InitQueryFactories c).keys ↔
        k ∈ ["cassandra", "clickhouse", "cratedb", "influx", "timescaledb", "siridb", "mongo",
          "akumuli", "victoriametrics", "timestream", "questdb"]) ∧
      (InitQueryFactories c).keys.Nodup ∧ (InitQueryFactories c).keys.length = 11 ∧
      (InitQueryFactories c).keys = (InitQueryFactories exampleConfig).keys ∧
      (InitQueryFactories c).get "cassandra" = some BaseGenerator.cassandra ∧
      (InitQueryFactories c).get "clickhouse" =
        some (BaseGenerator.clickhouse c.ClickhouseUseTags) ∧
      (InitQueryFactories c).get "cratedb" = some BaseGenerator.cratedb ∧
      (InitQueryFactories c).get "influx" = some BaseGenerator.influx ∧
      (InitQueryFactories c).get "timescaledb" =
        some (BaseGenerator.timescaledb c.TimescaleUseJSON c.TimescaleUseTags
          c.TimescaleUseTimeBucket) ∧
      (InitQueryFactories c).get "siridb" = some BaseGenerator.siridb ∧
      (InitQueryFactories c).get "mongo" = some (BaseGenerator.mongo c.MongoUseNaive) ∧
      (InitQueryFactories c).get "akumuli" = some BaseGenerator.akumuli ∧
      (InitQueryFactories c).get "victoriametrics" = some BaseGenerator.victoriametrics ∧
      (InitQueryFactories c).get "timestream" = some (BaseGenerator.timestream c.DbName) ∧
      (InitQueryFactories c).get "questdb" = some BaseGenerator.questdb := by
  refine ⟨by rw [InitQueryFactories_keys], ?_, ?_, ?_, ?_⟩
  · rw [InitQueryFactories_keys]; decide
  · rw [InitQueryFactories_keys]; rfl
  · rw [InitQueryFactories_keys, InitQueryFactories_keys]
  · rw [InitQueryFactories_eq]
    simp [Factories.get, List.lookup]

theorem floatValue_minus_one : floatValue float64info 0xBFF0000000000000 = -1 := by
  simp [floatValue, float64info]
  norm_num

/-- C14. For the Point with measurement `foo`, the tag `tag0` of value `bar`, the field
`baz` holding the `float64` -1.0, and the timestamp 100 ns, `SerializeInfluxBulk` writes, in
one call and for every sink, exactly the bytes `foo,tag0=bar baz=-1.0000000000000000 100`
followed by a newline: the float has 16 fractional digits and no suffix. -/
theorem SerializeInfluxBulk_example {σ ε : Type} (w : Writer σ ε) (s : σ) :
    examplePoint = ⟨lit "foo", [lit "tag0"], [lit "bar"], [lit "baz"],
        [FieldValue.float64 0xBFF0000000000000], 100⟩ ∧
      floatValue float64info 0xBFF0000000000000 = -1 ∧
      SerializeInfluxBulk w examplePoint s =
        writeOnce w s (lit "foo,tag0=bar baz=-1.0000000000000000 100\n") ∧
      SerializeInfluxBulk bufferWriter examplePoint [] =
        (lit "foo,tag0=bar baz=-1.0000000000000000 100\n", .ok none) := by
  have hb : influxBuf examplePoint = .ok (lit "foo,tag0=bar baz=-1.0000000000000000 100\n") := by
    decide
  refine ⟨rfl, floatValue_minus_one, ?_, by decide⟩
  simp only [SerializeInfluxBulk, hb, writeOnce]

/-- C15. For the same Point `SerializeESBulk` writes, for every sink, the header line
naming the index `foo` and then, if that write succeeded, the object line with the tag, the
field with 16 fractional digits and the timestamp 0, each line ended by a newline; no space
follows the opening brace of the object line. -/
theorem SerializeESBulk_example {σ ε : Type} (w : Writer σ ε) (s : σ) :
    SerializeESBulk w examplePoint s =
        writeTwice w s
          (lit "\x7b \"create\" : \x7b \"_index\" : \"foo\", \"_type\" : \"point\" \x7d \x7d\n")
          (lit "\x7b\"tag0\": \"bar\", \"baz\": -1.0000000000000000, \"timestamp\": 0 \x7d\n") ∧
      SerializeESBulk bufferWriter examplePoint [] =
        (lit "\x7b \"create\" : \x7b \"_index\" : \"foo\", \"_type\" : \"point\" \x7d \x7d\n" ++
          lit "\x7b\"tag0\": \"bar\", \"baz\": -1.0000000000000000, \"timestamp\": 0 \x7d\n",
          .ok none) ∧
      Int.tdiv examplePoint.Timestamp 1000000 = 0 := by
  have ha : esAction examplePoint =
      lit "\x7b \"create\" : \x7b \"_index\" : \"foo\", \"_type\" : \"point\" \x7d \x7d\n" := by
    decide
  have hb : esBuf examplePoint =
      .ok (lit "\x7b\"tag0\": \"bar\", \"baz\": -1.0000000000000000, \"timestamp\": 0 \x7d\n") := by
    decide
  refine ⟨?_, by decide, by decide⟩
  simp only [SerializeESBulk, ha, hb, writeTwice, writeOnce]
  cases (w.Write s
    (lit "\x7b \"create\" : \x7b \"_index\" : \"foo\", \"_type\" : \"point\" \x7d \x7d\n")).2 with
  | some err => rfl
  | none =>
    simp only
    cases (w.Write (w.Write s
      (lit "\x7b \"create\" : \x7b \"_index\" : \"foo\", \"_type\" : \"point\" \x7d \x7d\n")).1
      (lit "\x7b\"tag0\": \"bar\", \"baz\": -1.0000000000000000, \"timestamp\": 0 \x7d\n")).2 <;>
      rfl

/-- C17. `SerializeInfluxBulk` copies the measurement name, a tag key, a tag value, a field
key and a string field value as they are, whatever bytes they hold; and the encoding is not
injective: the Point with measurement `a,b=c` and no tags and the Point with measurement
`a` and the tag `b` of value `c`, both valid, different and with the same timestamp, are
written as the same bytes. -/
theorem SerializeInfluxBulk_not_injective {σ ε : Type} (w : Writer σ ε) (s : σ)
    (m k v fk fv : Bytes) (t : Int) :
    SerializeInfluxBulk w ⟨m, [k], [v], [fk], [FieldValue.string fv], t⟩ s =
        writeOnce w s (m ++ lit "," ++ k ++ lit "=" ++ v ++ lit " " ++ fk ++ lit "=" ++ fv ++
          lit " " ++ fmtInt t ++ lit "\n") ∧
      commaPoint ≠ tagPoint ∧ commaPoint.valid ∧ tagPoint.valid ∧
      commaPoint.wellFormed ∧ tagPoint.wellFormed ∧
      commaPoint.Timestamp = tagPoint.Timestamp ∧
      SerializeInfluxBulk w commaPoint s = SerializeInfluxBulk w tagPoint s ∧
      SerializeInfluxBulk bufferWriter commaPoint [] = (lit "a,b=c 0\n", .ok none) ∧
      SerializeInfluxBulk bufferWriter tagPoint [] = (lit "a,b=c 0\n", .ok none) := by
  have h1 : influxBuf commaPoint = .ok (lit "a,b=c 0\n") := by decide
  have h2 : influxBuf tagPoint = .ok (lit "a,b=c 0\n") := by decide
  refine ⟨?_, by decide, by decide, by decide, by decide, by decide, rfl, ?_, by decide,
    by decide⟩
  · have hw : Point.wellFormed ⟨m, [k], [v], [fk], [FieldValue.string fv], t⟩ := by
      simp [Point.wellFormed, FieldValue.known]
    simp only [SerializeInfluxBulk, influxBuf_eq _ hw, writeOnce]
    simp [influxLine, influxTag, influxAssignment, renderValue, FieldValue.isInteger, joinWith,
      List.append_assoc]
  · simp only [SerializeInfluxBulk, h1, h2]

theorem influxTags_eq_of_le (p : Point) (h : p.TagKeys.length ≤ p.TagValues.length) :
    ∀ (n i : Nat) (buf : Bytes), i + n = p.TagKeys.length →
      influxTags p n i buf =
        .ok (buf ++ (List.zipWith influxTag (p.TagKeys.drop i) (p.TagValues.drop i)).flatten) := by
  intro n
  induction n with
  | zero =>
    intro i buf hi
    have : p.TagKeys.drop i = [] := List.drop_eq_nil_of_le (by omega)
    simp [influxTags, this]
  | succ n ih =>
    intro i buf hi
    have h1 : i < p.TagKeys.length := by omega
    have h2 : i < p.TagValues.length := by omega
    rw [List.drop_eq_getElem_cons h1, List.drop_eq_getElem_cons h2]
    simp only [influxTags, index_eq _ _ h1, index_eq _ _ h2, bind, Except.bind]
    rw [ih (i + 1) _ (by omega)]
    simp only [influxTag, charComma, charEquals, List.append_assoc, List.zipWith_cons_cons,
      List.flatten_cons]

theorem influxFields_eq_of_le (p : Point) (h : p.FieldKeys.length ≤ p.FieldValues.length)
    (hk : ∀ v ∈ p.FieldValues, v.known) :
    ∀ (n i : Nat) (buf : Bytes), i + n = p.FieldKeys.length →
      influxFields p n i buf =
        .ok (buf ++ joinWith (lit ",")
          (List.zipWith influxAssignment (p.FieldKeys.drop i) (p.FieldValues.drop i))) := by
  intro n
  induction n with
  | zero =>
    intro i buf hi
    have : p.FieldKeys.drop i = [] := List.drop_eq_nil_of_le (by omega)
    simp [influxFields, this, joinWith]
  | succ n ih =>
    intro i buf hi
    have h1 : i < p.FieldKeys.length := by omega
    have h2 : i < p.FieldValues.length := by omega
    have hv : (p.FieldValues[i]).known := hk _ (List.getElem_mem h2)
    rw [List.drop_eq_getElem_cons h1, List.drop_eq_getElem_cons h2]
    simp only [influxFields, index_eq _ _ h1, index_eq _ _ h2, bind, Except.bind,
      fastFormatAppend_eq _ _ hv, influxSuffix_eq]
    rw [ih (i + 1) _ (by omega)]
    by_cases hlast : i + 1 < p.FieldKeys.length
    · have hne := zipWith_drop_ne_nil influxAssignment p.FieldKeys p.FieldValues (i + 1)
        hlast (by omega)
      simp only [hlast, if_true, List.zipWith_cons_cons, joinWith_cons _ _ _ hne,
        influxAssignment, charComma, charEquals, List.append_assoc]
    · have hnil : p.FieldKeys.drop (i + 1) = [] := List.drop_eq_nil_of_le (by omega)
      simp only [hlast, if_false, List.zipWith_cons_cons, hnil, List.zipWith_nil_left, joinWith,
        influxAssignment, charEquals, List.append_assoc, List.append_nil]

theorem influxBuf_eq_of_le (p : Point) (hp : p.enoughValues) : influxBuf p = .ok (influxLine p) := by
  obtain ⟨ht, hf, hk⟩ := hp
  have e1 := influxTags_eq_of_le p ht p.TagKeys.length 0 ([] ++ p.MeasurementName) (by omega)
  have e2 := fun buf => influxFields_eq_of_le p hf hk p.FieldKeys.length 0 buf (by omega)
  simp only [List.drop_zero] at e1 e2
  simp only [influxBuf, e1, e2, bind, Except.bind, pure, Except.pure, influxLine, charSpace]
  split_ifs <;> simp [List.append_assoc]

theorem esTags_succ_of_le (p : Point) (h : p.TagKeys.length ≤ p.TagValues.length) :
    ∀ (n i : Nat) (buf : Bytes), i + 1 + n = p.TagKeys.length →
      esTags p n (i + 1) buf =
        .ok (buf ++ ((List.zipWith esTagItem (p.TagKeys.drop (i + 1))
          (p.TagValues.drop (i + 1))).map (fun y => lit ", " ++ y)).flatten) := by
  intro n
  induction n with
  | zero =>
    intro i buf hi
    have : p.TagKeys.drop (i + 1) = [] := List.drop_eq_nil_of_le (by omega)
    simp [esTags, this]
  | succ n ih =>
    intro i buf hi
    have h1 : i + 1 < p.TagKeys.length := by omega
    have h2 : i + 1 < p.TagValues.length := by omega
    rw [List.drop_eq_getElem_cons h1, List.drop_eq_getElem_cons h2]
    simp only [esTags, index_eq _ _ h1, index_eq _ _ h2, bind, Except.bind]
    rw [ih (i + 1) _ (by omega)]
    simp only [Nat.succ_pos, gt_iff_lt, if_true, List.zipWith_cons_cons, List.map_cons,
      List.flatten_cons, esTagItem, List.append_assoc]

theorem esTags_eq_of_le (p : Point) (h : p.TagKeys.length ≤ p.TagValues.length) (buf : Bytes) :
    esTags p p.TagKeys.length 0 buf =
      .ok (buf ++ joinWith (lit ", ") (List.zipWith esTagItem p.TagKeys p.TagValues)) := by
  cases hn : p.TagKeys.length with
  | zero =>
    have : p.TagKeys = [] := List.length_eq_zero.mp hn
    simp [esTags, this, joinWith]
  | succ n =>
    have h1 : 0 < p.TagKeys.length := by omega
    have h2 : 0 < p.TagValues.length := by omega
    have e := esTags_succ_of_le p h n 0
    simp only [esTags, index_eq _ _ h1, index_eq _ _ h2, bind, Except.bind]
    rw [e _ (by omega)]
    conv_rhs => rw [← List.drop_zero (l := p.TagKeys), ← List.drop_zero (l := p.TagValues),
      List.drop_eq_getElem_cons h1, List.drop_eq_getElem_cons h2, List.zipWith_cons_cons,
      joinWith_cons_eq]
    simp only [lt_irrefl, gt_iff_lt, if_false, esTagItem, List.append_assoc, Nat.zero_add]

theorem esFields_succ_of_le (p : Point) (h : p.FieldKeys.length ≤ p.FieldValues.length)
    (hk : ∀ v ∈ p.FieldValues, v.known) :
    ∀ (n i : Nat) (buf : Bytes), i + 1 + n = p.FieldKeys.length →
      esFields p n (i + 1) buf =
        .ok (buf ++ ((List.zipWith esFieldItem (p.FieldKeys.drop (i + 1))
          (p.FieldValues.drop (i + 1))).map (fun y => lit ", " ++ y)).flatten) := by
  intro n
  induction n with
  | zero =>
    intro i buf hi
    have : p.FieldKeys.drop (i + 1) = [] := List.drop_eq_nil_of_le (by omega)
    simp [esFields, this]
  | succ n ih =>
    intro i buf hi
    have h1 : i + 1 < p.FieldKeys.length := by omega
    have h2 : i + 1 < p.FieldValues.length := by omega
    have hv : (p.FieldValues[i + 1]).known := hk _ (List.getElem_mem h2)
    rw [List.drop_eq_getElem_cons h1, List.drop_eq_getElem_cons h2]
    simp only [esFields, index_eq _ _ h1, index_eq _ _ h2, bind, Except.bind,
      fastFormatAppend_eq _ _ hv]
    rw [ih (i + 1) _ (by omega)]
    simp only [Nat.succ_pos, gt_iff_lt, if_true, List.zipWith_cons_cons, List.map_cons,
      List.flatten_cons, esFieldItem, List.append_assoc]

theorem esFields_eq_of_le (p : Point) (h : p.FieldKeys.length ≤ p.FieldValues.length)
    (hk : ∀ v ∈ p.FieldValues, v.known) (buf : Bytes) :
    esFields p p.FieldKeys.length 0 buf =
      .ok (buf ++ joinWith (lit ", ") (List.zipWith esFieldItem p.FieldKeys p.FieldValues)) := by
  cases hn : p.FieldKeys.length with
  | zero =>
    have : p.FieldKeys = [] := List.length_eq_zero.mp hn
    simp [esFields, this, joinWith]
  | succ n =>
    have h1 : 0 < p.FieldKeys.length := by omega
    have h2 : 0 < p.FieldValues.length := by omega
    have hv : (p.FieldValues[0]).known := hk _ (List.getElem_mem h2)
    have e := esFields_succ_of_le p h hk n 0
    simp only [esFields, index_eq _ _ h1, index_eq _ _ h2, bind, Except.bind,
      fastFormatAppend_eq _ _ hv]
    rw [e _ (by omega)]
    conv_rhs => rw [← List.drop_zero (l := p.FieldKeys), ← List.drop_zero (l := p.FieldValues),
      List.drop_eq_getElem_cons h1, List.drop_eq_getElem_cons h2, List.zipWith_cons_cons,
      joinWith_cons_eq]
    simp only [lt_irrefl, gt_iff_lt, if_false, esFieldItem, List.append_assoc, Nat.zero_add]

theorem zipWith_ne_nil_iff_of_le {α β γ : Type} (f : α → β → γ) (ks : List α) (vs : List β)
    (h : ks.length ≤ vs.length) : List.zipWith f ks vs ≠ [] ↔ ks.length > 0 := by
  cases ks with
  | nil => simp
  | cons k ks =>
    cases vs with
    | nil => simp at h
    | cons v vs => simp

theorem esBuf_eq_of_le (p : Point) (hp : p.enoughValues) : esBuf p = .ok (esObject p) := by
  obtain ⟨ht, hf, hk⟩ := hp
  simp only [esBuf, esTags_eq_of_le p ht, esFields_eq_of_le p hf hk, bind, Except.bind, pure, Except.pure,
    esObject, esItems, esMillis, joinWith_items, zipWith_ne_nil_iff_of_le _ _ _ ht,
    zipWith_ne_nil_iff_of_le _ _ _ hf]
  split_ifs <;> simp [esTimestampItem, List.append_assoc]

theorem index_ok {α : Type} (xs : List α) (i : Nat) (x : α) (h : index xs i = .ok x) :
    xs[i]? = some x := by
  unfold index at h
  split at h
  · rename_i y hy
    injection h with h
    rw [hy, h]
  · cases h

theorem index_error {α : Type} (xs : List α) (i : Nat) (f : Fatal) (h : index xs i = .error f) :
    f = Fatal.indexOutOfRange ∧ xs[i]? = none := by
  unfold index at h
  split at h
  · cases h
  · rename_i hy
    injection h with h
    exact ⟨h.symm, hy⟩

theorem index_of_le {α : Type} (xs : List α) (i : Nat) (h : xs.length ≤ i) :
    index xs i = .error Fatal.indexOutOfRange := by
  simp [index, List.getElem?_eq_none h]

theorem influxTags_error (p : Point) (j : Nat) (hj : p.TagValues.length ≤ j) :
    ∀ (n i : Nat) (buf : Bytes), i ≤ j → j < i + n → ∃ f, influxTags p n i buf = .error f := by
  intro n
  induction n with
  | zero => intro i buf h1 h2; omega
  | succ n ih =>
    intro i buf h1 h2
    simp only [influxTags, bind, Except.bind]
    cases hk : index p.TagKeys i with
    | error f => exact ⟨f, rfl⟩
    | ok k =>
      cases hv : index p.TagValues i with
      | error f => exact ⟨f, rfl⟩
      | ok v =>
        have hne : i ≠ j := by
          intro e
          have := index_of_le p.TagValues i (e ▸ hj)
          rw [this] at hv
          cases hv
        exact ih (i + 1) _ (by omega) (by omega)

theorem esTags_error (p : Point) (j : Nat) (hj : p.TagValues.length ≤ j) :
    ∀ (n i : Nat) (buf : Bytes), i ≤ j → j < i + n → ∃ f, esTags p n i buf = .error f := by
  intro n
  induction n with
  | zero => intro i buf h1 h2; omega
  | succ n ih =>
    intro i buf h1 h2
    simp only [esTags, bind, Except.bind]
    cases hk : index p.TagKeys i with
    | error f => exact ⟨f, rfl⟩
    | ok k =>
      cases hv : index p.TagValues i with
      | error f => exact ⟨f, rfl⟩
      | ok v =>
        have hne : i ≠ j := by
          intro e
          have := index_of_le p.TagValues i (e ▸ hj)
          rw [this] at hv
          cases hv
        exact ih (i + 1) _ (by omega) (by omega)

theorem influxFields_error (p : Point) (j : Nat)
    (hj : p.FieldValues[j]? = none ∨ p.FieldValues[j]? = some FieldValue.other) :
    ∀ (n i : Nat) (buf : Bytes), i ≤ j → j < i + n →
      ∃ f, influxFields p n i buf = .error f := by
  intro n
  induction n with
  | zero => intro i buf h1 h2; omega
  | succ n ih =>
    intro i buf h1 h2
    simp only [influxFields, bind, Except.bind]
    cases hk : index p.FieldKeys i with
    | error f => exact ⟨f, rfl⟩
    | ok k =>
      cases hv : index p.FieldValues i with
      | error f => exact ⟨f, rfl⟩
      | ok v =>
        dsimp only
        cases hf : fastFormatAppend v (buf ++ k ++ charEquals) with
        | error f => exact ⟨f, rfl⟩
        | ok b =>
          have hne : i ≠ j := by
            intro e
            subst e
            have hv2 := index_ok _ _ _ hv
            rcases hj with hj | hj
            · rw [hj] at hv2; cases hv2
            · rw [hj] at hv2
              injection hv2 with hv2
              subst hv2
              cases hf
          exact ih (i + 1) _ (by omega) (by omega)

theorem esFields_error (p : Point) (j : Nat)
    (hj : p.FieldValues[j]? = none ∨ p.FieldValues[j]? = some FieldValue.other) :
    ∀ (n i : Nat) (buf : Bytes), i ≤ j → j < i + n → ∃ f, esFields p n i buf = .error f := by
  intro n
  induction n with
  | zero => intro i buf h1 h2; omega
  | succ n ih =>
    intro i buf h1 h2
    simp only [esFields, bind, Except.bind]
    cases hk : index p.FieldKeys i with
    | error f => exact ⟨f, rfl⟩
    | ok k =>
      cases hv : index p.FieldValues i with
      | error f => exact ⟨f, rfl⟩
      | ok v =>
        dsimp only
        cases hf : fastFormatAppend v
            ((if i > 0 then buf ++ lit ", " else buf) ++ lit "\"" ++ k ++ lit "\": ") with
        | error f => exact ⟨f, rfl⟩
        | ok b =>
          have hne : i ≠ j := by
            intro e
            subst e
            have hv2 := index_ok _ _ _ hv
            rcases hj with hj | hj
            · rw [hj] at hv2; cases hv2
            · rw [hj] at hv2
              injection hv2 with hv2
              subst hv2
              cases hf
          exact ih (i + 1) _ (by omega) (by omega)

theorem influxBuf_error (p : Point)
    (h : p.TagValues.length < p.TagKeys.length ∨
      ∃ j, j < p.FieldKeys.length ∧
        (p.FieldValues[j]? = none ∨ p.FieldValues[j]? = some FieldValue.other)) :
    ∃ f, influxBuf p = .error f := by
  simp only [influxBuf, bind, Except.bind]
  cases ht : influxTags p p.TagKeys.length 0 ([] ++ p.MeasurementName) with
  | error f => exact ⟨f, rfl⟩
  | ok b =>
    dsimp only
    rcases h with h | ⟨j, hj, hv⟩
    · obtain ⟨f, hf⟩ := influxTags_error p p.TagValues.length (le_refl _) p.TagKeys.length 0
        ([] ++ p.MeasurementName) (Nat.zero_le _) (by omega)
      rw [hf] at ht
      cases ht
    · obtain ⟨f, hf⟩ := influxFields_error p j hv p.FieldKeys.length 0
        (if p.FieldKeys.length > 0 then b ++ charSpace else b) (Nat.zero_le _) (by omega)
      rw [hf]
      exact ⟨f, rfl⟩

theorem esBuf_error (p : Point)
    (h : p.TagValues.length < p.TagKeys.length ∨
      ∃ j, j < p.FieldKeys.length ∧
        (p.FieldValues[j]? = none ∨ p.FieldValues[j]? = some FieldValue.other)) :
    ∃ f, esBuf p = .error f := by
  simp only [esBuf, bind, Except.bind]
  cases ht : esTags p p.TagKeys.length 0 ([] ++ lit "\x7b") with
  | error f => exact ⟨f, rfl⟩
  | ok b =>
    dsimp only
    rcases h with h | ⟨j, hj, hv⟩
    · obtain ⟨f, hf⟩ := esTags_error p p.TagValues.length (le_refl _) p.TagKeys.length 0
        ([] ++ lit "\x7b") (Nat.zero_le _) (by omega)
      rw [hf] at ht
      cases ht
    · obtain ⟨f, hf⟩ := esFields_error p j hv p.FieldKeys.length 0
        (if p.TagKeys.length > 0 ∧ p.FieldKeys.length > 0 then b ++ lit ", " else b)
        (Nat.zero_le _) (by omega)
      rw [hf]
      exact ⟨f, rfl⟩

theorem unknown_cause (p : Point) (h : p.hasUnknownField) :
    p.TagValues.length < p.TagKeys.length ∨
      ∃ j, j < p.FieldKeys.length ∧
        (p.FieldValues[j]? = none ∨ p.FieldValues[j]? = some FieldValue.other) := by
  obtain ⟨j, hj, hv⟩ := h
  exact Or.inr ⟨j, hj, Or.inr hv⟩

theorem fewValues_cause (p : Point) (h : p.fewValues) :
    p.TagValues.length < p.TagKeys.length ∨
      ∃ j, j < p.FieldKeys.length ∧
        (p.FieldValues[j]? = none ∨ p.FieldValues[j]? = some FieldValue.other) := by
  rcases h with h | h
  · exact Or.inl h
  · exact Or.inr ⟨p.FieldValues.length, h, Or.inl (List.getElem?_eq_none (le_refl _))⟩

theorem influxTags_fatal (p : Point) :
    ∀ (n i : Nat) (buf : Bytes) (f : Fatal),
      influxTags p n i buf = .error f → f = Fatal.indexOutOfRange := by
  intro n
  induction n with
  | zero => intro i buf f h; cases h
  | succ n ih =>
    intro i buf f
    simp only [influxTags, bind, Except.bind]
    cases hk : index p.TagKeys i with
    | error e => intro h; injection h with h; exact h ▸ (index_error _ _ _ hk).1
    | ok k =>
      cases hv : index p.TagValues i with
      | error e => intro h; injection h with h; exact h ▸ (index_error _ _ _ hv).1
      | ok v => exact ih _ _ f

theorem esTags_fatal (p : Point) :
    ∀ (n i : Nat) (buf : Bytes) (f : Fatal),
      esTags p n i buf = .error f → f = Fatal.indexOutOfRange := by
  intro n
  induction n with
  | zero => intro i buf f h; cases h
  | succ n ih =>
    intro i buf f
    simp only [esTags, bind, Except.bind]
    cases hk : index p.TagKeys i with
    | error e => intro h; injection h with h; exact h ▸ (index_error _ _ _ hk).1
    | ok k =>
      cases hv : index p.TagValues i with
      | error e => intro h; injection h with h; exact h ▸ (index_error _ _ _ hv).1
      | ok v => exact ih _ _ f

theorem influxFields_fatal (p : Point) (hk : ∀ v ∈ p.FieldValues, v.known) :
    ∀ (n i : Nat) (buf : Bytes) (f : Fatal),
      influxFields p n i buf = .error f → f = Fatal.indexOutOfRange := by
  intro n
  induction n with
  | zero => intro i buf f h; cases h
  | succ n ih =>
    intro i buf f
    simp only [influxFields, bind, Except.bind]
    cases hk1 : index p.FieldKeys i with
    | error e => intro h; injection h with h; exact h ▸ (index_error _ _ _ hk1).1
    | ok k =>
      cases hv : index p.FieldValues i with
      | error e => intro h; injection h with h; exact h ▸ (index_error _ _ _ hv).1
      | ok v =>
        dsimp only
        have hkn : v.known := hk v (List.getElem?_mem (index_ok _ _ _ hv))
        rw [fastFormatAppend_eq _ _ hkn]
        exact ih _ _ f

theorem esFields_fatal (p : Point) (hk : ∀ v ∈ p.FieldValues, v.known) :
    ∀ (n i : Nat) (buf : Bytes) (f : Fatal),
      esFields p n i buf = .error f → f = Fatal.indexOutOfRange := by
  intro n
  induction n with
  | zero => intro i buf f h; cases h
  | succ n ih =>
    intro i buf f
    simp only [esFields, bind, Except.bind]
    cases hk1 : index p.FieldKeys i with
    | error e => intro h; injection h with h; exact h ▸ (index_error _ _ _ hk1).1
    | ok k =>
      cases hv : index p.FieldValues i with
      | error e => intro h; injection h with h; exact h ▸ (index_error _ _ _ hv).1
      | ok v =>
        dsimp only
        have hkn : v.known := hk v (List.getElem?_mem (index_ok _ _ _ hv))
        rw [fastFormatAppend_eq _ _ hkn]
        exact ih _ _ f

theorem influxBuf_fatal (p : Point) (hk : ∀ v ∈ p.FieldValues, v.known) (f : Fatal) :
    influxBuf p = .error f → f = Fatal.indexOutOfRange := by
  simp only [influxBuf, bind, Except.bind]
  cases ht : influxTags p p.TagKeys.length 0 ([] ++ p.MeasurementName) with
  | error e => intro h; injection h with h; exact h ▸ influxTags_fatal p _ _ _ _ ht
  | ok b =>
    dsimp only
    cases hf : influxFields p p.FieldKeys.length 0
        (if p.FieldKeys.length > 0 then b ++ charSpace else b) with
    | error e => intro h; injection h with h; exact h ▸ influxFields_fatal p hk _ _ _ _ hf
    | ok b2 => intro h; cases h

theorem esBuf_fatal (p : Point) (hk : ∀ v ∈ p.FieldValues, v.known) (f : Fatal) :
    esBuf p = .error f → f = Fatal.indexOutOfRange := by
  simp only [esBuf, bind, Except.bind]
  cases ht : esTags p p.TagKeys.length 0 ([] ++ lit "\x7b") with
  | error e => intro h; injection h with h; exact h ▸ esTags_fatal p _ _ _ _ ht
  | ok b =>
    dsimp only
    cases hf : esFields p p.FieldKeys.length 0
        (if p.TagKeys.length > 0 ∧ p.FieldKeys.length > 0 then b ++ lit ", " else b) with
    | error e => intro h; injection h with h; exact h ▸ esFields_fatal p hk _ _ _ _ hf
    | ok b2 => intro h; cases h

theorem fastFormatAppend_error (v : FieldValue) (buf : Bytes) (f : Fatal)
    (h : fastFormatAppend v buf = .error f) : f = Fatal.unknownFieldType := by
  cases v <;> cases h
  rfl

theorem influxFields_kind (p : Point) (h : p.FieldKeys.length ≤ p.FieldValues.length) :
    ∀ (n i : Nat) (buf : Bytes) (f : Fatal), i + n = p.FieldKeys.length →
      influxFields p n i buf = .error f → f = Fatal.unknownFieldType := by
  intro n
  induction n with
  | zero => intro i buf f _ h; cases h
  | succ n ih =>
    intro i buf f hi
    have h1 : i < p.FieldKeys.length := by omega
    have h2 : i < p.FieldValues.length := by omega
    simp only [influxFields, index_eq _ _ h1, index_eq _ _ h2, bind, Except.bind]
    cases hf : fastFormatAppend p.FieldValues[i] (buf ++ p.FieldKeys[i] ++ charEquals) with
    | error e => intro h; injection h with h; exact h ▸ fastFormatAppend_error _ _ _ hf
    | ok b => exact ih _ _ f (by omega)

theorem esFields_kind (p : Point) (h : p.FieldKeys.length ≤ p.FieldValues.length) :
    ∀ (n i : Nat) (buf : Bytes) (f : Fatal), i + n = p.FieldKeys.length →
      esFields p n i buf = .error f → f = Fatal.unknownFieldType := by
  intro n
  induction n with
  | zero => intro i buf f _ h; cases h
  | succ n ih =>
    intro i buf f hi
    have h1 : i < p.FieldKeys.length := by omega
    have h2 : i < p.FieldValues.length := by omega
    simp only [esFields, index_eq _ _ h1, index_eq _ _ h2, bind, Except.bind]
    cases hf : fastFormatAppend p.FieldValues[i]
        ((if i > 0 then buf ++ lit ", " else buf) ++ lit "\"" ++ p.FieldKeys[i] ++ lit "\": ") with
    | error e => intro h; injection h with h; exact h ▸ fastFormatAppend_error _ _ _ hf
    | ok b => exact ih _ _ f (by omega)

theorem influxBuf_kind (p : Point) (ht : p.TagKeys.length ≤ p.TagValues.length)
    (hf : p.FieldKeys.length ≤ p.FieldValues.length) (f : Fatal) :
    influxBuf p = .error f → f = Fatal.unknownFieldType := by
  have e1 := influxTags_eq_of_le p ht p.TagKeys.length 0 ([] ++ p.MeasurementName) (by omega)
  simp only [influxBuf, e1, bind, Except.bind]
  cases h2 : influxFields p p.FieldKeys.length 0
      (if p.FieldKeys.length > 0 then
        [] ++ p.MeasurementName ++
          (List.zipWith influxTag (List.drop 0 p.TagKeys) (List.drop 0 p.TagValues)).flatten ++
          charSpace
      else [] ++ p.MeasurementName ++
          (List.zipWith influxTag (List.drop 0 p.TagKeys) (List.drop 0 p.TagValues)).flatten) with
  | error e => intro h; injection h with h; exact h ▸ influxFields_kind p hf _ _ _ _ (by omega) h2
  | ok b => intro h; cases h

theorem esBuf_kind (p : Point) (ht : p.TagKeys.length ≤ p.TagValues.length)
    (hf : p.FieldKeys.length ≤ p.FieldValues.length) (f : Fatal) :
    esBuf p = .error f → f = Fatal.unknownFieldType := by
  simp only [esBuf, esTags_eq_of_le p ht, bind, Except.bind]
  cases h2 : esFields p p.FieldKeys.length 0
      (if p.TagKeys.length > 0 ∧ p.FieldKeys.length > 0 then
        [] ++ lit "\x7b" ++ joinWith (lit ", ") (List.zipWith esTagItem p.TagKeys p.TagValues) ++
          lit ", "
      else
        [] ++ lit "\x7b" ++ joinWith (lit ", ") (List.zipWith esTagItem p.TagKeys p.TagValues)) with
  | error e => intro h; injection h with h; exact h ▸ esFields_kind p hf _ _ _ _ (by omega) h2
  | ok b => intro h; cases h

theorem zipWith_take_right {α β γ : Type} (f : α → β → γ) :
    ∀ (ks : List α) (vs : List β), List.zipWith f ks (vs.take ks.length) = List.zipWith f ks vs := by
  intro ks
  induction ks with
  | nil => intro vs; simp
  | cons k ks ih =>
    intro vs
    cases vs with
    | nil => simp
    | cons v vs => simp [ih]

theorem length_zipWith_of_le {α β γ : Type} (f : α → β → γ) (ks : List α) (vs : List β)
    (h : ks.length ≤ vs.length) : (List.zipWith f ks vs).length = ks.length := by
  rw [List.length_zipWith]
  omega

theorem SerializeInfluxBulk_of_error {σ ε : Type} (w : Writer σ ε) (p : Point) (s : σ)
    (f : Fatal) (h : influxBuf p = .error f) : SerializeInfluxBulk w p s = (s, .error f) := by
  simp only [SerializeInfluxBulk, h]

theorem SerializeInfluxBulk_of_ok {σ ε : Type} (w : Writer σ ε) (p : Point) (s : σ)
    (buf : Bytes) (h : influxBuf p = .ok buf) : SerializeInfluxBulk w p s = writeOnce w s buf := by
  simp only [SerializeInfluxBulk, h, writeOnce]

theorem SerializeESBulk_of_write_error {σ ε : Type} (w : Writer σ ε) (p : Point) (s : σ)
    (e : ε) (h : (w.Write s (esAction p)).2 = some e) :
    SerializeESBulk w p s = ((w.Write s (esAction p)).1, .ok (some e)) := by
  simp only [SerializeESBulk, h]

theorem SerializeESBulk_of_error {σ ε : Type} (w : Writer σ ε) (p : Point) (s : σ)
    (f : Fatal) (hw : (w.Write s (esAction p)).2 = none) (h : esBuf p = .error f) :
    SerializeESBulk w p s = ((w.Write s (esAction p)).1, .error f) := by
  simp only [SerializeESBulk, hw, h]

theorem SerializeESBulk_of_ok {σ ε : Type} (w : Writer σ ε) (p : Point) (s : σ)
    (buf : Bytes) (h : esBuf p = .ok buf) :
    SerializeESBulk w p s = writeTwice w s (esAction p) buf := by
  simp only [SerializeESBulk, h, writeTwice, writeOnce]
  cases (w.Write s (esAction p)).2 with
  | some err => rfl
  | none =>
    simp only
    cases (w.Write (w.Write s (esAction p)).1 buf).2 <;> rfl

/-- C11, as the code has it. For every Point that contains a field of unknown type and
every sink, `SerializeInfluxBulk` panics without writing, and `SerializeESBulk` panics if
its write of the header succeeds, whereas it returns the error of that write, an ordinary
error value, if the write fails; when the Point has at least as many values as keys the
panic is the one of the unknown field type.  For every Point all of whose field values are
of known type, neither encoder panics in that way. -/
theorem unknown_field_fatal {σ ε : Type} (w : Writer σ ε) (p : Point) (s : σ) :
    (p.hasUnknownField →
        (∃ f, SerializeInfluxBulk w p s = (s, .error f)) ∧
          ((w.Write s (esAction p)).2 = none →
            ∃ f, SerializeESBulk w p s = ((w.Write s (esAction p)).1, .error f)) ∧
          (∀ e, (w.Write s (esAction p)).2 = some e →
            SerializeESBulk w p s = ((w.Write s (esAction p)).1, .ok (some e))) ∧
          (p.TagKeys.length ≤ p.TagValues.length → p.FieldKeys.length ≤ p.FieldValues.length →
            SerializeInfluxBulk w p s = (s, .error Fatal.unknownFieldType) ∧
              ((w.Write s (esAction p)).2 = none →
                SerializeESBulk w p s =
                  ((w.Write s (esAction p)).1, .error Fatal.unknownFieldType)))) ∧
      ((∀ v ∈ p.FieldValues, v.known) →
        (SerializeInfluxBulk w p s).2 ≠ .error Fatal.unknownFieldType ∧
          (SerializeESBulk w p s).2 ≠ .error Fatal.unknownFieldType) := by
  constructor
  · intro hu
    obtain ⟨f1, h1⟩ := influxBuf_error p (unknown_cause p hu)
    obtain ⟨f2, h2⟩ := esBuf_error p (unknown_cause p hu)
    refine ⟨⟨f1, SerializeInfluxBulk_of_error w p s f1 h1⟩,
      fun hw => ⟨f2, SerializeESBulk_of_error w p s f2 hw h2⟩,
      fun e he => SerializeESBulk_of_write_error w p s e he, ?_⟩
    intro ht hf
    have e1 := influxBuf_kind p ht hf f1 h1
    have e2 := esBuf_kind p ht hf f2 h2
    subst e1
    subst e2
    exact ⟨SerializeInfluxBulk_of_error w p s _ h1,
      fun hw => SerializeESBulk_of_error w p s _ hw h2⟩
  · intro hk
    constructor
    · intro h
      cases hb : influxBuf p with
      | error f =>
        rw [SerializeInfluxBulk_of_error w p s f hb] at h
        injection h with h
        have := influxBuf_fatal p hk f hb
        rw [this] at h
        cases h
      | ok buf =>
        rw [SerializeInfluxBulk_of_ok w p s buf hb] at h
        cases h
    · intro h
      cases hw : (w.Write s (esAction p)).2 with
      | some e =>
        rw [SerializeESBulk_of_write_error w p s e hw] at h
        cases h
      | none =>
        cases hb : esBuf p with
        | error f =>
          rw [SerializeESBulk_of_error w p s f hw hb] at h
          injection h with h
          have := esBuf_fatal p hk f hb
          rw [this] at h
          cases h
        | ok buf =>
          rw [SerializeESBulk_of_ok w p s buf hb] at h
          simp only [writeTwice, hw, writeOnce] at h
          cases h

/-- An instance at the Point whose second field is of unknown type, on the sink that
appends what it receives: the line-oriented encoder panics with nothing written, the
bulk-action encoder panics with the header written. -/
theorem unknown_field_fatal_witness :
    unknownFieldPoint.hasUnknownField ∧
      (∃ f, SerializeInfluxBulk bufferWriter unknownFieldPoint [] = ([], .error f)) ∧
      SerializeESBulk bufferWriter unknownFieldPoint [] =
        (esAction unknownFieldPoint, .error Fatal.unknownFieldType) ∧
      (∀ v ∈ examplePoint.FieldValues, v.known) ∧
      (SerializeInfluxBulk bufferWriter examplePoint []).2 ≠ .error Fatal.unknownFieldType :=
  have h := unknown_field_fatal bufferWriter unknownFieldPoint []
  have h2 := unknown_field_fatal bufferWriter examplePoint []
  ⟨by decide, (h.1 (by decide)).1,
    ((h.1 (by decide)).2.2.2 (by decide) (by decide)).2 rfl, by decide,
    (h2.2 (by decide)).1⟩

/-- C11 fails as stated: on a sink whose first write fails, `SerializeESBulk` applied to a
Point with a field of unknown type returns the error of that write; it does not panic. -/
theorem unknown_field_error_return :
    unknownFieldPoint.hasUnknownField ∧
      SerializeESBulk (callLog 0) unknownFieldPoint [] =
        ([esAction unknownFieldPoint], .ok (some "write failed")) :=
  ⟨by decide, by decide⟩

/-- C12. For every Point with at least as many values as keys and field values of known
type, and every sink: `SerializeInfluxBulk` makes its one write and returns exactly what
that write returns, an error if and only if the write gave it and no error if the write
succeeded; `SerializeESBulk` returns the error of the header write if that write fails,
without a second write, and otherwise returns what the write of the object line returns.
Neither call panics. -/
theorem sink_errors_returned {σ ε : Type} (w : Writer σ ε) (p : Point) (s : σ)
    (hp : p.enoughValues) :
    (SerializeInfluxBulk w p s).2 = .ok (w.Write s (influxLine p)).2 ∧
      (SerializeInfluxBulk w p s).1 = (w.Write s (influxLine p)).1 ∧
      (∀ e, (SerializeInfluxBulk w p s).2 = .ok (some e) ↔
        (w.Write s (influxLine p)).2 = some e) ∧
      (∀ e, (w.Write s (esAction p)).2 = some e →
        SerializeESBulk w p s = ((w.Write s (esAction p)).1, .ok (some e))) ∧
      ((w.Write s (esAction p)).2 = none →
        SerializeESBulk w p s =
          ((w.Write (w.Write s (esAction p)).1 (esObject p)).1,
            .ok (w.Write (w.Write s (esAction p)).1 (esObject p)).2)) ∧
      (∀ f, (SerializeInfluxBulk w p s).2 ≠ .error f ∧ (SerializeESBulk w p s).2 ≠ .error f) := by
  have h1 := SerializeInfluxBulk_of_ok w p s _ (influxBuf_eq_of_le p hp)
  have h2 := SerializeESBulk_of_ok w p s _ (esBuf_eq_of_le p hp)
  refine ⟨by rw [h1]; rfl, by rw [h1]; rfl, ?_, ?_, ?_, ?_⟩
  · intro e
    rw [h1]
    simp [writeOnce]
  · intro e he
    exact SerializeESBulk_of_write_error w p s e he
  · intro hw
    rw [h2]
    simp only [writeTwice, hw, writeOnce]
  · intro f
    constructor
    · rw [h1]
      simp [writeOnce]
    · rw [h2]
      simp only [writeTwice, writeOnce]
      cases (w.Write s (esAction p)).2 <;> simp

/-- An instance at the example Point: on a sink whose every write fails the header is the
only call and its error is returned; on a sink whose second write fails both lines are
passed and the error of the second write is returned. -/
theorem sink_errors_returned_witness :
    examplePoint.enoughValues ∧
      SerializeESBulk (callLog 0) examplePoint [] =
        ([esAction examplePoint], .ok (some "write failed")) ∧
      SerializeESBulk (callLog 1) examplePoint [] =
        ([esAction examplePoint, esObject examplePoint], .ok (some "write failed")) ∧
      (SerializeInfluxBulk (callLog 0) examplePoint []).2 = .ok (some "write failed") :=
  have h0 := sink_errors_returned (callLog 0) examplePoint [] (by decide)
  have h1 := sink_errors_returned (callLog 1) examplePoint [] (by decide)
  ⟨by decide, h0.2.2.2.1 "write failed" rfl, h1.2.2.2.2.1 rfl, h0.1⟩

/-- C18. For every Point and every sink, `SerializeInfluxBulk` either panics with the sink
left as it was, or makes exactly one write, of the whole buffer built from the measurement,
the tags, the fields and the timestamp, and returns what that write returns; the sink that
keeps its calls has at most one.  For a Point with at least as many values as keys and
values of known type that one call carries the complete line; for a Point with a field of
unknown type, at whatever position, the call panics and the sink has received nothing. -/
theorem SerializeInfluxBulk_atomic {σ ε : Type} (w : Writer σ ε) (p : Point) (s : σ)
    (good : Nat) :
    ((∃ f, influxBuf p = .error f ∧ SerializeInfluxBulk w p s = (s, .error f)) ∨
        (∃ buf, influxBuf p = .ok buf ∧
          SerializeInfluxBulk w p s = ((w.Write s buf).1, .ok (w.Write s buf).2))) ∧
      (SerializeInfluxBulk (callLog good) p []).1.length ≤ 1 ∧
      (p.enoughValues → (SerializeInfluxBulk (callLog good) p []).1 = [influxLine p]) ∧
      (p.hasUnknownField →
        (∃ f, SerializeInfluxBulk w p s = (s, .error f)) ∧
          (SerializeInfluxBulk (callLog good) p []).1 = [] ∧
          (SerializeInfluxBulk bufferWriter p []).1 = []) := by
  have hcases : (∃ f, influxBuf p = .error f) ∨ (∃ buf, influxBuf p = .ok buf) := by
    cases influxBuf p with
    | error f => exact Or.inl ⟨f, rfl⟩
    | ok buf => exact Or.inr ⟨buf, rfl⟩
  refine ⟨?_, ?_, ?_, ?_⟩
  · rcases hcases with ⟨f, hf⟩ | ⟨buf, hb⟩
    · exact Or.inl ⟨f, hf, SerializeInfluxBulk_of_error w p s f hf⟩
    · exact Or.inr ⟨buf, hb, SerializeInfluxBulk_of_ok w p s buf hb⟩
  · rcases hcases with ⟨f, hf⟩ | ⟨buf, hb⟩
    · rw [SerializeInfluxBulk_of_error _ p [] f hf]
      simp
    · rw [SerializeInfluxBulk_of_ok _ p [] buf hb]
      simp [writeOnce, callLog]
  · intro hp
    rw [SerializeInfluxBulk_of_ok _ p [] _ (influxBuf_eq_of_le p hp)]
    simp [writeOnce, callLog]
  · intro hu
    obtain ⟨f, hf⟩ := influxBuf_error p (unknown_cause p hu)
    refine ⟨⟨f, SerializeInfluxBulk_of_error w p s f hf⟩, ?_, ?_⟩
    · rw [SerializeInfluxBulk_of_error _ p [] f hf]
    · rw [SerializeInfluxBulk_of_error _ p [] f hf]

/-- An instance at the Point whose second field is of unknown type: the first field is of
known type, and still no byte reaches the sink. -/
theorem SerializeInfluxBulk_atomic_witness :
    unknownFieldPoint.hasUnknownField ∧ examplePoint.enoughValues ∧
      (SerializeInfluxBulk bufferWriter unknownFieldPoint []).1 = [] ∧
      (SerializeInfluxBulk (callLog 1) examplePoint []).1 = [influxLine examplePoint] :=
  ⟨by decide, by decide,
    ((SerializeInfluxBulk_atomic bufferWriter unknownFieldPoint [] 1).2.2.2 (by decide)).2.2,
    (SerializeInfluxBulk_atomic bufferWriter examplePoint [] 1).2.2.1 (by decide)⟩

/-- C19. `SerializeESBulk` writes the header before it formats any tag or field: for every
Point that contains a field of unknown type and every sink whose write of the header
succeeds, the call panics with the sink in the state that the write of the header left, so
the sink that keeps its calls holds the header line alone and the sink that appends holds
exactly the header line.  For a Point with at least as many values as keys and values of
known type, the sink that keeps its calls holds two, the header line and then the object
line. -/
theorem SerializeESBulk_header_first {σ ε : Type} (w : Writer σ ε) (p : Point) (s : σ) :
    (p.hasUnknownField →
        ((w.Write s (esAction p)).2 = none →
          ∃ f, SerializeESBulk w p s = ((w.Write s (esAction p)).1, .error f)) ∧
          (∃ f, SerializeESBulk (callLog 2) p [] = ([esHeader p ++ lit "\n"], .error f)) ∧
          (∃ f, SerializeESBulk bufferWriter p [] = (esHeader p ++ lit "\n", .error f))) ∧
      (p.enoughValues →
        SerializeESBulk (callLog 2) p [] = ([esHeader p ++ lit "\n", esObject p], .ok none)) := by
  have ha : esAction p = esHeader p ++ lit "\n" := by
    simp only [esAction, esHeader, List.append_assoc]
    rfl
  constructor
  · intro hu
    obtain ⟨f, hf⟩ := esBuf_error p (unknown_cause p hu)
    refine ⟨fun hw => ⟨f, SerializeESBulk_of_error w p s f hw hf⟩, ⟨f, ?_⟩, ⟨f, ?_⟩⟩
    · rw [SerializeESBulk_of_error (callLog 2) p [] f rfl hf, ha]
      rfl
    · rw [SerializeESBulk_of_error bufferWriter p [] f rfl hf, ha]
      rfl
  · intro hp
    rw [SerializeESBulk_of_ok _ p [] _ (esBuf_eq_of_le p hp), ha]
    rfl

/-- An instance at the Point whose second field is of unknown type. -/
theorem SerializeESBulk_header_first_witness :
    unknownFieldPoint.hasUnknownField ∧ examplePoint.enoughValues ∧
      (∃ f, SerializeESBulk bufferWriter unknownFieldPoint [] =
        (esHeader unknownFieldPoint ++ lit "\n", .error f)) ∧
      SerializeESBulk (callLog 2) examplePoint [] =
        ([esHeader examplePoint ++ lit "\n", esObject examplePoint], .ok none) :=
  ⟨by decide, by decide,
    ((SerializeESBulk_header_first bufferWriter unknownFieldPoint []).1 (by decide)).2.2,
    (SerializeESBulk_header_first bufferWriter examplePoint []).2 (by decide)⟩

theorem truncate_enoughValues (p : Point) (hp : p.enoughValues) : p.truncate.enoughValues := by
  obtain ⟨ht, hf, hk⟩ := hp
  refine ⟨?_, ?_, ?_⟩
  · simp only [Point.truncate, List.length_take]
    omega
  · simp only [Point.truncate, List.length_take]
    omega
  · intro v hv
    exact hk v (List.mem_of_mem_take hv)

theorem influxLine_truncate (p : Point) : influxLine p.truncate = influxLine p := by
  simp only [influxLine, Point.truncate, zipWith_take_right]

theorem esObject_truncate (p : Point) : esObject p.truncate = esObject p := by
  simp only [esObject, esItems, Point.truncate, zipWith_take_right]

/-- C20, as the code has it. The encoders take the value at the position of each key.  For
every Point with at least as many tag values as tag keys, at least as many field values as
field keys and field values of known type, and every sink, both encoders write their lines
without an out-of-range panic, with exactly as many tags as tag keys and as many fields as
field keys, and do exactly what they do on the Point without its surplus values.  For every
Point with fewer tag values than tag keys, or fewer field values than field keys,
`SerializeInfluxBulk` panics without writing, and `SerializeESBulk` panics if its write of
the header succeeds, whereas it returns the error of that write if the write fails. -/
theorem values_taken_by_position {σ ε : Type} (w : Writer σ ε) (p : Point) (s : σ) :
    (p.enoughValues →
        SerializeInfluxBulk w p s = writeOnce w s (influxLine p) ∧
          SerializeESBulk w p s = writeTwice w s (esAction p) (esObject p) ∧
          (List.zipWith influxTag p.TagKeys p.TagValues).length = p.TagKeys.length ∧
          (List.zipWith influxAssignment p.FieldKeys p.FieldValues).length =
            p.FieldKeys.length ∧
          (esItems p).length = p.TagKeys.length + p.FieldKeys.length + 1 ∧
          SerializeInfluxBulk w p s = SerializeInfluxBulk w p.truncate s ∧
          SerializeESBulk w p s = SerializeESBulk w p.truncate s) ∧
      (p.fewValues →
        (∃ f, SerializeInfluxBulk w p s = (s, .error f)) ∧
          ((w.Write s (esAction p)).2 = none →
            ∃ f, SerializeESBulk w p s = ((w.Write s (esAction p)).1, .error f)) ∧
          (∀ e, (w.Write s (esAction p)).2 = some e →
            SerializeESBulk w p s = ((w.Write s (esAction p)).1, .ok (some e)))) := by
  constructor
  · intro hp
    have h1 := SerializeInfluxBulk_of_ok w p s _ (influxBuf_eq_of_le p hp)
    have h2 := SerializeESBulk_of_ok w p s _ (esBuf_eq_of_le p hp)
    have hq := truncate_enoughValues p hp
    have h3 := SerializeInfluxBulk_of_ok w p.truncate s _ (influxBuf_eq_of_le _ hq)
    have h4 := SerializeESBulk_of_ok w p.truncate s _ (esBuf_eq_of_le _ hq)
    have ha : esAction p.truncate = esAction p := rfl
    refine ⟨h1, h2, length_zipWith_of_le _ _ _ hp.1, length_zipWith_of_le _ _ _ hp.2.1, ?_, ?_, ?_⟩
    · simp only [esItems, List.length_append, List.length_singleton,
        length_zipWith_of_le _ _ _ hp.1, length_zipWith_of_le _ _ _ hp.2.1]
    · rw [h1, h3, influxLine_truncate]
    · rw [h2, h4, esObject_truncate, ha]
  · intro hfew
    obtain ⟨f1, h1⟩ := influxBuf_error p (fewValues_cause p hfew)
    obtain ⟨f2, h2⟩ := esBuf_error p (fewValues_cause p hfew)
    exact ⟨⟨f1, SerializeInfluxBulk_of_error w p s f1 h1⟩,
      fun hw => ⟨f2, SerializeESBulk_of_error w p s f2 hw h2⟩,
      fun e he => SerializeESBulk_of_write_error w p s e he⟩

/-- An instance at a Point with one tag value and one field value too many, whose lines
hold one tag and one field, and at a Point with a tag key and no tag value, on which both
encoders panic. -/
theorem values_taken_by_position_witness :
    surplusPoint.enoughValues ∧ shortPoint.fewValues ∧
      SerializeInfluxBulk bufferWriter surplusPoint [] = (lit "m,k=v f=1i 0\n", .ok none) ∧
      SerializeESBulk bufferWriter surplusPoint [] =
        (esAction surplusPoint ++ lit "\x7b\"k\": \"v\", \"f\": 1, \"timestamp\": 0 \x7d\n",
          .ok none) ∧
      (∃ f, SerializeInfluxBulk bufferWriter shortPoint [] = ([], .error f)) ∧
      (∃ f, SerializeESBulk bufferWriter shortPoint [] = (esAction shortPoint, .error f)) :=
  have h1 := (values_taken_by_position bufferWriter surplusPoint []).1 (by decide)
  have h2 := (values_taken_by_position bufferWriter shortPoint []).2 (by decide)
  ⟨by decide, by decide, h1.1.trans (by decide), h1.2.1.trans (by decide), h2.1, h2.2.1 rfl⟩

/-- C20 fails as stated: on a sink whose first write fails, `SerializeESBulk` applied to a
Point with a tag key and no tag value returns the error of that write; it does not panic. -/
theorem few_values_error_return :
    shortPoint.fewValues ∧
      SerializeESBulk (callLog 0) shortPoint [] =
        ([esAction shortPoint], .ok (some "write failed")) :=
  ⟨by decide, by decide⟩

theorem digitValue_digitByte (d : Nat) : digitValue (digitByte d) = some (d % 10) := by
  have h : d % 10 < 10 := Nat.mod_lt _ (by decide)
  have e : (digitByte d).toNat = 48 + d % 10 := by
    rw [digitByte, toNat_toUInt8]
    omega
  simp only [digitValue, e]
  rw [if_pos (by omega)]
  congr 1
  omega

theorem parseDigits_append_digit (d : Nat) : ∀ (l : Bytes) (acc : Nat),
    parseDigits acc (l ++ [digitByte d]) =
      (parseDigits acc l).map (fun x => 10 * x + d % 10) := by
  intro l
  induction l with
  | nil =>
    intro acc
    simp [parseDigits, digitValue_digitByte]
  | cons b rest ih =>
    intro acc
    simp only [List.cons_append, parseDigits]
    cases digitValue b with
    | none => rfl
    | some x => exact ih _

theorem natDigits_append : ∀ (fuel n : Nat) (acc : Bytes),
    natDigits fuel n acc = natDigits fuel n [] ++ acc := by
  intro fuel
  induction fuel with
  | zero => intro n acc; rfl
  | succ fuel ih =>
    intro n acc
    simp only [natDigits]
    split_ifs
    · rfl
    · rw [ih _ (digitByte n :: acc), ih _ [digitByte n]]
      simp

theorem parseDigits_natDigits : ∀ (fuel n : Nat), n < fuel →
    parseDigits 0 (natDigits fuel n []) = some n := by
  intro fuel
  induction fuel with
  | zero => intro n h; omega
  | succ fuel ih =>
    intro n h
    simp only [natDigits]
    split_ifs with h0
    · have : n % 10 = n := by omega
      simp [parseDigits, digitValue_digitByte, this]
    · rw [natDigits_append, parseDigits_append_digit, ih _ (by omega)]
      simp only [Option.map_some']
      congr 1
      omega

theorem parseDigits_fmtNat (n : Nat) : parseDigits 0 (fmtNat n) = some n :=
  parseDigits_natDigits (n + 1) n (by omega)

theorem parseDigits_fixedDigits : ∀ (width n : Nat),
    parseDigits 0 (fixedDigits width n) = some (n % 10 ^ width) := by
  intro width
  induction width with
  | zero => intro n; simp [fixedDigits, parseDigits, Nat.mod_one]
  | succ width ih =>
    intro n
    rw [fixedDigits, parseDigits_append_digit, ih]
    simp only [Option.map_some']
    congr 1
    rw [pow_succ, Nat.mul_comm (10 ^ width) 10, Nat.mod_mul]
    omega

theorem length_fixedDigits : ∀ (width n : Nat), (fixedDigits width n).length = width := by
  intro width
  induction width with
  | zero => intro n; rfl
  | succ width ih => intro n; simp [fixedDigits, ih]

theorem takeWhile_append_cons {α : Type} (p : α → Bool) (a : α) (r : List α) (ha : p a = false) :
    ∀ l : List α, (∀ b ∈ l, p b = true) →
      (l ++ a :: r).takeWhile p = l ∧ (l ++ a :: r).dropWhile p = a :: r := by
  intro l
  induction l with
  | nil => intro _; simp [List.takeWhile, List.dropWhile, ha]
  | cons b l ih =>
    intro h
    have hb : p b = true := h b (List.mem_cons_self _ _)
    have hl := ih (fun x hx => h x (List.mem_cons_of_mem _ hx))
    simp [List.takeWhile, List.dropWhile, hb, hl.1, hl.2]

theorem digit_ne_point (b : UInt8) (h : b ∈ lit "0123456789") : (b != byte '.') = true := by
  revert b
  decide

theorem digit_ne_minus (b : UInt8) (h : b ∈ lit "0123456789") :
    (some b == some (byte '-')) = false := by
  revert b
  decide

theorem parseFixed_of_parts (neg : Bool) (I F : Bytes) (i f : Nat)
    (hI : ∀ b ∈ I, b ∈ lit "0123456789") (hI0 : I ≠ []) (hF0 : F ≠ [])
    (hi : parseDigits 0 I = some i) (hf : parseDigits 0 F = some f) :
    parseFixed ((if neg then lit "-" else []) ++ I ++ lit "." ++ F) =
      some (if neg then -((i : ℚ) + (f : ℚ) / 10 ^ F.length)
        else (i : ℚ) + (f : ℚ) / 10 ^ F.length) := by
  have hsplit := takeWhile_append_cons (fun b => b != byte '.') (byte '.') F (by decide) I
    (fun b hb => digit_ne_point b (hI b hb))
  have hbody : I ++ lit "." ++ F = I ++ byte '.' :: F := by
    rw [List.append_assoc]; rfl
  cases neg with
  | true =>
    have htext : (if true = true then lit "-" else []) ++ I ++ lit "." ++ F =
        byte '-' :: (I ++ byte '.' :: F) := by
      rw [← hbody]; simp [lit, List.append_assoc]
    rw [htext]
    simp only [parseFixed, List.head?_cons, beq_self_eq_true, if_true, List.tail_cons,
      hsplit.1, hsplit.2, hI0, hF0, or_self, if_false, hi, hf]
  | false =>
    have htext : (if false = true then lit "-" else []) ++ I ++ lit "." ++ F =
        I ++ byte '.' :: F := by
      rw [← hbody]; simp
    rw [htext]
    obtain ⟨b, I', rfl⟩ := List.exists_cons_of_ne_nil hI0
    have hb := digit_ne_minus b (hI b (List.mem_cons_self _ _))
    have hhead : (b :: I' ++ byte '.' :: F).head? = some b := rfl
    simp only [parseFixed, hhead, hb, hsplit.1, hsplit.2, hF0, or_self, if_false, hi, hf,
      Bool.false_eq_true, List.cons_ne_nil]

theorem fmtNat_ne_nil (n : Nat) : fmtNat n ≠ [] := by
  intro h
  simp only [fmtNat, natDigits] at h
  split_ifs at h
  rw [natDigits_append] at h
  simp at h

theorem parseFixed_fmtF (neg : Bool) (n : Nat) :
    parseFixed (fmtF neg n) =
      some (if neg then -((n : ℚ) / 10 ^ 16) else (n : ℚ) / 10 ^ 16) := by
  have hval : ((n / 10 ^ 16 : Nat) : ℚ) + ((n % 10 ^ 16 % 10 ^ 16 : Nat) : ℚ) / 10 ^ 16 =
      (n : ℚ) / 10 ^ 16 := by
    rw [Nat.mod_mod]
    have h := Nat.div_add_mod n (10 ^ 16)
    have hq : ((10 ^ 16 * (n / 10 ^ 16) + n % 10 ^ 16 : Nat) : ℚ) = (n : ℚ) := by rw [h]
    push_cast at hq
    field_simp
    linarith
  have h := parseFixed_of_parts neg (fmtNat (n / 10 ^ 16)) (fixedDigits 16 (n % 10 ^ 16))
    (n / 10 ^ 16) (n % 10 ^ 16 % 10 ^ 16) (fun b hb => fmtNat_mem _ b hb) (fmtNat_ne_nil _)
    (by simp [fixedDigits]) (parseDigits_fmtNat _) (parseDigits_fixedDigits 16 _)
  rw [length_fixedDigits, hval] at h
  exact h

theorem roundHalfEven_bound (a b : Nat) (hb : 0 < b) :
    |((roundHalfEven a b : Nat) : ℚ) - (a : ℚ) / (b : ℚ)| ≤ 1 / 2 := by
  have hb' : (0 : ℚ) < (b : ℚ) := by exact_mod_cast hb
  have hsplit : ((b * (a / b) + a % b : Nat) : ℚ) = (a : ℚ) := by rw [Nat.div_add_mod]
  push_cast at hsplit
  have hr : a % b < b := Nat.mod_lt _ hb
  have hr' : ((a % b : Nat) : ℚ) < (b : ℚ) := by exact_mod_cast hr
  have hdiv : (a : ℚ) / (b : ℚ) = ((a / b : Nat) : ℚ) + ((a % b : Nat) : ℚ) / (b : ℚ) := by
    field_simp
    linarith
  rw [hdiv, abs_le]
  simp only [roundHalfEven]
  split_ifs with hup
  · have h2 : (b : ℚ) ≤ 2 * ((a % b : Nat) : ℚ) := by
      rcases hup with h | ⟨h, _⟩
      · have : b ≤ 2 * (a % b) := le_of_lt h
        exact_mod_cast this
      · have : b ≤ 2 * (a % b) := le_of_eq h.symm
        exact_mod_cast this
    have h3 : (1 : ℚ) / 2 ≤ ((a % b : Nat) : ℚ) / (b : ℚ) := by
      rw [le_div_iff₀ hb']
      linarith
    have h4 : ((a % b : Nat) : ℚ) / (b : ℚ) ≤ 1 := by
      rw [div_le_iff₀ hb']
      linarith
    push_cast
    constructor <;> linarith
  · have h2 : 2 * ((a % b : Nat) : ℚ) ≤ (b : ℚ) := by
      have : 2 * (a % b) ≤ b := by
        by_contra hc
        exact hup (Or.inl (by omega))
      exact_mod_cast this
    have h3 : ((a % b : Nat) : ℚ) / (b : ℚ) ≤ 1 / 2 := by
      rw [div_le_iff₀ hb']
      linarith
    have h4 : (0 : ℚ) ≤ ((a % b : Nat) : ℚ) / (b : ℚ) :=
      div_nonneg (Nat.cast_nonneg _) (le_of_lt hb')
    constructor <;> linarith

theorem scaled16_bound (m : Nat) (e : Int) :
    |((scaled16 m e : Nat) : ℚ) - (m : ℚ) * (2 : ℚ) ^ e * 10 ^ 16| ≤ 1 / 2 := by
  cases e with
  | ofNat k =>
    simp only [scaled16]
    push_cast
    rw [Int.ofNat_eq_coe, zpow_natCast]
    norm_num
  | negSucc k =>
    simp only [scaled16]
    have h := roundHalfEven_bound (m * 10 ^ 16) (2 ^ (k + 1)) (Nat.pos_pow_of_pos _ (by decide))
    have e2 : (m : ℚ) * (2 : ℚ) ^ (Int.negSucc k) * 10 ^ 16 =
        ((m * 10 ^ 16 : Nat) : ℚ) / ((2 ^ (k + 1) : Nat) : ℚ) := by
      rw [zpow_negSucc]
      push_cast
      field_simp
      left
      norm_num
    rw [e2]
    exact h

theorem fmtF_round_trip (neg : Bool) (m : Nat) (e : Int) :
    ∃ d, parseFixed (fmtF neg (scaled16 m e)) = some d ∧
      |d - (if neg then -((m : ℚ) * (2 : ℚ) ^ e) else (m : ℚ) * (2 : ℚ) ^ e)| ≤
        1 / (2 * 10 ^ 16) := by
  have hb := scaled16_bound m e
  have key : |((scaled16 m e : Nat) : ℚ) / 10 ^ 16 - (m : ℚ) * (2 : ℚ) ^ e| ≤
      1 / (2 * 10 ^ 16) := by
    have hx : ((scaled16 m e : Nat) : ℚ) / 10 ^ 16 - (m : ℚ) * (2 : ℚ) ^ e =
        (((scaled16 m e : Nat) : ℚ) - (m : ℚ) * (2 : ℚ) ^ e * 10 ^ 16) / 10 ^ 16 := by
      field_simp
      ring
    rw [hx, abs_div, abs_of_pos (by norm_num : (0 : ℚ) < 10 ^ 16)]
    have h2 := div_le_div_of_nonneg_right hb (by norm_num : (0 : ℚ) ≤ 10 ^ 16)
    calc |((scaled16 m e : Nat) : ℚ) - (m : ℚ) * (2 : ℚ) ^ e * 10 ^ 16| / 10 ^ 16
        ≤ 1 / 2 / 10 ^ 16 := h2
      _ = 1 / (2 * 10 ^ 16) := by norm_num
  refine ⟨_, parseFixed_fmtF neg _, ?_⟩
  cases neg with
  | false => simpa using key
  | true =>
    have e2 : -(((scaled16 m e : Nat) : ℚ) / 10 ^ 16) - -((m : ℚ) * (2 : ℚ) ^ e) =
        -(((scaled16 m e : Nat) : ℚ) / 10 ^ 16 - (m : ℚ) * (2 : ℚ) ^ e) := by ring
    simp only [if_true]
    rw [e2, abs_neg]
    exact key

theorem fmtFloat_round_trip (flt : floatInfo) (bits : Nat) (h : floatFinite flt bits) :
    ∃ d, parseFixed (fmtFloat flt bits) = some d ∧
      |d - floatValue flt bits| ≤ 1 / (2 * 10 ^ 16) := by
  unfold floatFinite at h
  simp only [fmtFloat, floatValue, if_neg h]
  exact fmtF_round_trip _ _ _

/-- C16. For every finite `float64` value, given by its bit pattern, the text that
`fastFormatAppend` produces is in fixed notation, and the number it denotes differs from
the exact value of the float by at most half a unit of the 16th fractional digit. -/
theorem float64_text_round_trip (bits : Nat) (h : floatFinite float64info bits) :
    ∃ (text : Bytes) (d : ℚ),
      fastFormatAppend (FieldValue.float64 bits) [] = .ok text ∧
        parseFixed text = some d ∧
        |d - floatValue float64info bits| ≤ 1 / (2 * 10 ^ 16) := by
  obtain ⟨d, h1, h2⟩ := fmtFloat_round_trip float64info bits h
  exact ⟨fmtFloat float64info bits, d, by simp [fastFormatAppend], h1, h2⟩

/-- An instance at the `float64` closest to one tenth, whose text is 0.1 followed by 15
zeros. -/
theorem float64_text_round_trip_witness :
    floatFinite float64info 0x3FB999999999999A ∧
      ∃ (text : Bytes) (d : ℚ),
        fastFormatAppend (FieldValue.float64 0x3FB999999999999A) [] = .ok text ∧
          parseFixed text = some d ∧
          |d - floatValue float64info 0x3FB999999999999A| ≤ 1 / (2 * 10 ^ 16) :=
  ⟨by decide, float64_text_round_trip 0x3FB999999999999A (by decide)⟩

end Tsbs
